import Mathlib

/-!
# Inclusion (lookup) queries of the Wizard framework

A shallow embedding of `prover/wizard/query_inclusion.go`: the validating
constructor `API.NewInclusion`, the native check `QueryInclusion.Check` and the
circuit check `QueryInclusion.CheckGnark`; and of
`prover/wizard/query_range_metadata.go`: the metadata methods and the result
methods of `QueryRange`.

Conventions of the embedding.

* A Go panic (a call of `utils.Panic`, or a runtime panic such as an index out
  of range) is the value `none` of an `Option`; a normal return is `some`.
* Field elements are the elements of a type `F` with commutative ring
  operations and decidable equality; `field.Zero()` is `0` and `field.One()` is
  `1`.
* A nil interface or a nil slice is `none`, a non-nil one is `some`.
* The random challenge drawn by `alpha.SetRandom()` is an explicit argument
  `alpha` of `Check`, which is the body of the method after a draw that
  succeeded; `Check.withDraw` adds the draw itself, with the panic of the
  method on an error of the entropy source.
-/

namespace Wizard

/-! ## Data model -/

/-- Modelled from the spec: the external `Column` contract. A column is a
named, sized, round-tagged handle; the query code only consumes `Size()`,
`Round()`, `String()` and `GetAssignment(run)`. -/
structure Column where
  name : String
  size : Nat
  round : Nat
deriving DecidableEq, Repr

/-- Modelled from the spec: a `smartvectors.SmartVector` is the vector of field
elements assigned to a column. -/
abbrev SmartVector (F : Type) := List F

/-- Modelled from the spec: `SmartVector.Get(n)` reads position `n`; reading
past the end panics. -/
def SmartVector.Get {F : Type} (v : SmartVector F) (n : Nat) : Option F := v[n]?

/-- Modelled from the spec: the native runtime resolves every column to its
concrete value vector. -/
structure Runtime (F : Type) where
  assignment : Column → SmartVector F

/-- The method `Column.Size()`. -/
def Column.Size (c : Column) : Nat := c.size

/-- The method `Column.Round()`. -/
def Column.Round (c : Column) : Nat := c.round

/-- The method `Column.String()`. -/
def Column.String (c : Column) : String := c.name

/-- The method `Column.GetAssignment(run)`. -/
def Column.GetAssignment {F : Type} (c : Column) (run : Runtime F) : SmartVector F :=
  run.assignment c

/-- Modelled from the spec: the hierarchical naming context of a query. -/
structure scope where
  path : List String
deriving DecidableEq, Repr

/-- Modelled from the spec: the metadata attached to every query (unique id,
name, tags, doc and scope). -/
structure metadata where
  scope : scope
  name : String
  tags : List String
  doc : String
  id : Nat
deriving DecidableEq, Repr

/-- The embedded `subQuery`: the round of the query. -/
structure subQuery where
  round : Nat
deriving DecidableEq, Repr

/-- The struct `QueryInclusion`. `Including` is indexed `[fragment][column]`;
`IncludedFilter` is a nilable column and `IncludingFilter` a nilable slice
indexed per fragment. -/
structure QueryInclusion where
  Included : List Column
  Including : List (List Column)
  IncludedFilter : Option Column
  IncludingFilter : Option (List Column)
  metadata : metadata
  subQuery : subQuery
deriving DecidableEq, Repr

/-- Modelled from the spec: the builder context owning the scope, the next-id
counter and the registry of queries indexed by round. -/
structure API where
  scope : scope
  numMetadata : Nat
  queries : Nat → List QueryInclusion

/-- Modelled from the spec: `api.newMetadata()` builds the metadata of a new
query with a fresh id (the current counter) and advances the counter. -/
def API.newMetadata (api : API) : metadata × API :=
  ({ scope := api.scope, name := "", tags := [], doc := "", id := api.numMetadata },
   { api with numMetadata := api.numMetadata + 1 })

/-- Modelled from the spec: `api.queries.addToRound(round, q)` inserts the query
under its round bucket. -/
def API.addToRound (api : API) (round : Nat) (q : QueryInclusion) : API :=
  { api with queries := fun r => if r = round then api.queries r ++ [q] else api.queries r }

/-- Modelled from the spec: `utils.AllReturnEqual(f, args)` returns the common
value of `f` over `args`; the error (here `none`) is returned when two
arguments give different values, or when there is no argument at all. -/
def utils.AllReturnEqual {T U : Type} [DecidableEq U] (fs : T → U) (args : List T) :
    Option U :=
  match args with
  | [] => none
  | first :: rest => if rest.all (fun arg => decide (fs arg = fs first)) then some (fs first) else none

/-! ## Construction -/

/-- The loop `for frag := range including` of `NewInclusion`, started at
fragment index `frag` with the fragments that remain; it returns the round
accumulated so far, or panics. -/
def API.NewInclusion.forFrag (nCol : Nat) (includingFilter : Option (List Column)) :
    Nat → List (List Column) → Nat → Option Nat
  | _, [], round => some round
  | frag, cols :: rest, round =>
    let round := cols.foldl (fun round c => max round c.Round) round
    if cols.length ≠ nCol then none
    else if (utils.AllReturnEqual Column.Size cols).isNone then none
    else
      match includingFilter with
      | some filters =>
        let round := filters.foldl (fun round c => max round c.Round) round
        match filters[frag]?, cols[0]? with
        | some f, some c0 =>
          if f.Size ≠ c0.Size then none
          else API.NewInclusion.forFrag nCol includingFilter (frag + 1) rest round
        | _, _ => none
      | none => API.NewInclusion.forFrag nCol includingFilter (frag + 1) rest round

/-- The constructor `NewInclusion`: it returns the query and the updated API,
or panics (`none`) when the query is malformed. -/
def API.NewInclusion (api : API) (included : List Column) (including : List (List Column))
    (includedFilter : Option Column) (includingFilter : Option (List Column)) :
    Option (QueryInclusion × API) :=
  if included.length = 0 then none
  else if including.length = 0 then none
  else
    let nCol := included.length
    let round := 0
    match API.NewInclusion.forFrag nCol includingFilter 0 including round with
    | none => none
    | some round =>
      if (utils.AllReturnEqual Column.Size included).isNone then none
      else
        let round := included.foldl (fun round c => max round c.Round) round
        let checked : Option Nat :=
          match includedFilter with
          | some filter =>
            let round := max round filter.Round
            match included[0]? with
            | some c0 => if filter.Size ≠ c0.Size then none else some round
            | none => none
          | none => some round
        match checked with
        | none => none
        | some round =>
          let (md, api) := api.newMetadata
          let res : QueryInclusion :=
            { Included := included
              Including := including
              IncludedFilter := includedFilter
              IncludingFilter := includingFilter
              metadata := md
              subQuery := { round := round } }
          some (res, api.addToRound round res)

/-- The method `IsFilteredOnIncluding`. -/
def QueryInclusion.IsFilteredOnIncluding (r : QueryInclusion) : Bool :=
  r.IncludingFilter.isSome

/-- The method `IsFilteredOnIncluded`. -/
def QueryInclusion.IsFilteredOnIncluded (r : QueryInclusion) : Bool :=
  r.IncludedFilter.isSome

/-! ## The native check -/

/-- The value that `Check` returns: the nil error, or the error reporting the
first row of the included table that was not found, with the pairs
`name=value` of that row. -/
inductive error (F : Type) where
  | nil : error F
  | rowNotFound (row : Nat) (notFoundRow : List (String × F)) : error F
deriving DecidableEq, Repr

/-- Modelled from the spec: the row fingerprint `sum_i alpha^i * value_i` of a
tuple of values, the value that `rowLinComb` computes for a row. -/
def fingerprint {F : Type} [CommRing F] (alpha : F) (values : List F) : F :=
  (values.enum.map (fun p => alpha ^ p.1 * p.2)).sum

/-- Modelled from the spec: `rowLinComb(alpha, i, list)`, whose body is not in
`query_inclusion.go`, is the fingerprint `sum_j alpha^j * list[j].Get(i)` of row `i` of the
table `list`; it panics when a vector has no position `i`. -/
def rowLinComb {F : Type} [CommRing F] (alpha : F) (i : Nat) (list : List (SmartVector F)) :
    Option F :=
  (list.mapM (fun (v : SmartVector F) => v.Get i)).map (fingerprint alpha)

/-- The loop `for row := 0; row < Size; row++` that fills `inclusionSet` with
the fingerprints of the eligible rows of fragment `frag`. The Go map used as a
set is a list: inserting is consing, looking up is membership. -/
def QueryInclusion.Check.forIncludingRow {F : Type} [CommRing F] [DecidableEq F]
    (r : QueryInclusion) (alpha : F) (including : List (List (SmartVector F)))
    (filterIncluding : List (SmartVector F)) (frag : Nat) :
    List Nat → List F → Option (List F)
  | [], inclusionSet => some inclusionSet
  | row :: rows, inclusionSet =>
    let eligible : Option Bool :=
      if !r.IsFilteredOnIncluding then some true
      else (filterIncluding[frag]?).bind (fun f => (f.Get row).map (fun x => decide (x = 1)))
    match eligible with
    | none => none
    | some true =>
      match (including[frag]?).bind (fun cols => rowLinComb alpha row cols) with
      | none => none
      | some rand =>
        QueryInclusion.Check.forIncludingRow r alpha including filterIncluding frag rows
          (rand :: inclusionSet)
    | some false =>
      QueryInclusion.Check.forIncludingRow r alpha including filterIncluding frag rows
        inclusionSet

/-- The loop `for frag := range r.Including` that builds `inclusionSet`. -/
def QueryInclusion.Check.forFrag {F : Type} [CommRing F] [DecidableEq F]
    (r : QueryInclusion) (alpha : F) (including : List (List (SmartVector F)))
    (filterIncluding : List (SmartVector F)) :
    List Nat → List F → Option (List F)
  | [], inclusionSet => some inclusionSet
  | frag :: frags, inclusionSet =>
    match (r.Including[frag]?).bind (fun cols => cols[0]?) with
    | none => none
    | some c0 =>
      match QueryInclusion.Check.forIncludingRow r alpha including filterIncluding frag
          (List.range c0.Size) inclusionSet with
      | none => none
      | some inclusionSet =>
        QueryInclusion.Check.forFrag r alpha including filterIncluding frags inclusionSet

/-- The pairs `name=value` of row `row` listed in the error. -/
def QueryInclusion.Check.notFoundRow {F : Type} (r : QueryInclusion)
    (included : List (SmartVector F)) (row : Nat) : Option (List (String × F)) :=
  (List.range included.length).mapM (fun c =>
    (included[c]?).bind (fun (v : SmartVector F) => (v.Get row).bind (fun x =>
      (r.Included[c]?).map (fun col => (col.String, x)))))

/-- The loop `for row := 0; row < r.Included[0].Size(); row++` that looks up
every required row of the included table in `inclusionSet`. -/
def QueryInclusion.Check.forIncludedRow {F : Type} [CommRing F] [DecidableEq F]
    (r : QueryInclusion) (alpha : F) (included : List (SmartVector F))
    (filterIncluded : Option (SmartVector F)) (inclusionSet : List F) :
    List Nat → Option (error F)
  | [] => some error.nil
  | row :: rows =>
    let skip : Option Bool :=
      if r.IsFilteredOnIncluded then
        filterIncluded.bind (fun f => (f.Get row).map (fun x => decide (x = 0)))
      else some false
    match skip with
    | none => none
    | some true =>
      QueryInclusion.Check.forIncludedRow r alpha included filterIncluded inclusionSet rows
    | some false =>
      match rowLinComb alpha row included with
      | none => none
      | some rand =>
        if rand ∈ inclusionSet then
          QueryInclusion.Check.forIncludedRow r alpha included filterIncluded inclusionSet rows
        else
          (QueryInclusion.Check.notFoundRow r included row).map (error.rowNotFound row)

/-- The method `Check`, run with the challenge `alpha` that `alpha.SetRandom()`
drew without error; a result `none` is the panic of a read out of range. The
draw and its `panic(err)` are in `QueryInclusion.Check.withDraw`. -/
def QueryInclusion.Check {F : Type} [CommRing F] [DecidableEq F]
    (r : QueryInclusion) (run : Runtime F) (alpha : F) : Option (error F) :=
  let including := r.Including.map (fun frag => frag.map (fun pol => pol.GetAssignment run))
  let included := r.Included.map (fun pol => pol.GetAssignment run)
  let filterIncluding : List (SmartVector F) :=
    if r.IsFilteredOnIncluding then
      (r.IncludingFilter.getD []).map (fun pol => pol.GetAssignment run)
    else []
  let filterIncluded : Option (SmartVector F) :=
    if r.IsFilteredOnIncluded then r.IncludedFilter.map (fun pol => pol.GetAssignment run)
    else none
  match QueryInclusion.Check.forFrag r alpha including filterIncluding
      (List.range r.Including.length) [] with
  | none => none
  | some inclusionSet =>
    match r.Included[0]? with
    | none => none
    | some c0 =>
      QueryInclusion.Check.forIncludedRow r alpha included filterIncluded inclusionSet
        (List.range c0.Size)

/-- How a call of `Check` ends: by the panic on an error of the entropy source,
by the panic of a read out of range, or by returning its error value. -/
inductive CheckOutcome (F : Type) where
  | drawFailed : CheckOutcome F
  | outOfRange : CheckOutcome F
  | returned (err : error F) : CheckOutcome F
deriving DecidableEq, Repr

/-- The method `Check` with the draw of the challenge. `draw` is what
`alpha.SetRandom()` returns: `some alpha` is the element drawn with a nil
error, `none` is a non-nil error, on which the method panics (`panic(err)`).
The assignments fetched before the draw cannot panic, and after a draw that
succeeded the rest of the body is `QueryInclusion.Check` with the element
drawn. -/
def QueryInclusion.Check.withDraw {F : Type} [CommRing F] [DecidableEq F]
    (r : QueryInclusion) (run : Runtime F) (draw : Option F) : CheckOutcome F :=
  match draw with
  | none => CheckOutcome.drawFailed
  | some alpha =>
    match r.Check run alpha with
    | none => CheckOutcome.outOfRange
    | some err => CheckOutcome.returned err

/-- The method `CheckGnark`. It panics with a message, whatever it is given:
here a panic with its message is `Except.error` and a normal return would be
`Except.ok`. The circuit API and the circuit runtime are external; they are
values of arbitrary types. -/
def QueryInclusion.CheckGnark {A G : Type} (_i : QueryInclusion) (_api : A) (_run : G) :
    Except String Unit :=
  Except.error "UNSUPPORTED : can't check an inclusion query directly into the circuit"

/-! ## Construction with the state of the API made explicit -/

/-- How a call that works on the API ends: by a panic, leaving the API in the
state reached when it panicked, or by returning a value and the new state. -/
inductive Outcome (α : Type) where
  | panicked (api : API) : Outcome α
  | returned (value : α) (api : API) : Outcome α

/-- The constructor `NewInclusion` once more, with the state of the API
threaded through the body: every `utils.Panic` (and every index panic) ends the
call in the state of the API at that point, and the normal return carries the
state after `api.newMetadata()` and `api.queries.addToRound(round, res)`. -/
def API.NewInclusion.exec (api : API) (included : List Column)
    (including : List (List Column)) (includedFilter : Option Column)
    (includingFilter : Option (List Column)) : Outcome QueryInclusion :=
  if included.length = 0 then Outcome.panicked api
  else if including.length = 0 then Outcome.panicked api
  else
    let nCol := included.length
    let round := 0
    match API.NewInclusion.forFrag nCol includingFilter 0 including round with
    | none => Outcome.panicked api
    | some round =>
      if (utils.AllReturnEqual Column.Size included).isNone then Outcome.panicked api
      else
        let round := included.foldl (fun round c => max round c.Round) round
        let checked : Option Nat :=
          match includedFilter with
          | some filter =>
            let round := max round filter.Round
            match included[0]? with
            | some c0 => if filter.Size ≠ c0.Size then none else some round
            | none => none
          | none => some round
        match checked with
        | none => Outcome.panicked api
        | some round =>
          let (md, api) := api.newMetadata
          let res : QueryInclusion :=
            { Included := included
              Including := including
              IncludedFilter := includedFilter
              IncludingFilter := includingFilter
              metadata := md
              subQuery := { round := round } }
          Outcome.returned res (api.addToRound round res)

/-! ## Range queries: metadata and results -/

/-- Modelled from the spec: the struct `QueryRange`, a range constraint bounding
the values of one column, with the metadata and round scaffolding of every
query. -/
structure QueryRange where
  Handle : Column
  B : Nat
  metadata : metadata
  subQuery : subQuery
deriving DecidableEq, Repr

/-- Modelled from the spec: `strconv.Itoa` on an id, the decimal representation
of a natural number. -/
def strconv.Itoa (i : Nat) : String := Nat.repr i

/-- Modelled from the spec: `scope.getFullScope()`, the hierarchical scope
written as a path. -/
def scope.getFullScope (s : scope) : String := "/".intercalate s.path

/-- Modelled from the spec: `metadata.nameOrDefault(q)`, the explicit name when
one was given (the name is not empty), otherwise a default derived from the
id. -/
def metadata.nameOrDefault (m : metadata) : String :=
  if m.name = "" then "QUERY_" ++ strconv.Itoa m.id else m.name

/-- The method `WithTags`. The receiver is a pointer: the result is the
receiver after the update, which is also the query that the method returns. -/
def QueryRange.WithTags (i : QueryRange) (tags : List String) : QueryRange :=
  { i with metadata := { i.metadata with tags := i.metadata.tags ++ tags } }

/-- The method `WithName`; the result is the receiver after the update. -/
def QueryRange.WithName (i : QueryRange) (name : String) : QueryRange :=
  { i with metadata := { i.metadata with name := name } }

/-- The method `WithDoc`; the result is the receiver after the update. -/
def QueryRange.WithDoc (i : QueryRange) (doc : String) : QueryRange :=
  { i with metadata := { i.metadata with doc := doc } }

/-- The method `Tags`. -/
def QueryRange.Tags (i : QueryRange) : List String := i.metadata.tags

/-- The method `String`. -/
def QueryRange.String (i : QueryRange) : String :=
  i.metadata.scope.getFullScope ++ "/" ++ i.metadata.nameOrDefault ++ "/"
    ++ strconv.Itoa i.metadata.id

/-- The method `id`. -/
def QueryRange.id (i : QueryRange) : Nat := i.metadata.id

/-- Modelled from the spec: the result of a query, either the empty no-value
result or a computed value. -/
inductive QueryResult (F : Type) where
  | QueryResNone : QueryResult F
  | QueryResValue (value : F) : QueryResult F
deriving DecidableEq, Repr

/-- Modelled from the spec: the result of a query in a circuit, either the empty
no-value result or a computed circuit variable. -/
inductive QueryResultGnark (V : Type) where
  | QueryResNoneGnark : QueryResultGnark V
  | QueryResValueGnark (value : V) : QueryResultGnark V
deriving DecidableEq, Repr

/-- The method `ComputeResult`. -/
def QueryRange.ComputeResult {F : Type} (_i : QueryRange) (_run : Runtime F) : QueryResult F :=
  QueryResult.QueryResNone

/-- The method `ComputeResultGnark`; the circuit API, the circuit runtime and
the circuit variables are external and are values of arbitrary types. -/
def QueryRange.ComputeResultGnark {A G V : Type} (_i : QueryRange) (_api : A) (_run : G) :
    QueryResultGnark V :=
  QueryResultGnark.QueryResNoneGnark

/-- The part of the output of `String()` up to and including the last `/`:
what is left when the suffix after the last `/` is removed. -/
def dropIdSuffix (s : String) : String :=
  String.mk (s.data.reverse.dropWhile (fun c => c != '/')).reverse

/-! ## Notions used to state the properties -/

/-- The number of rows of a table of columns, read as the code reads it: the
declared size of the first column. -/
def rowCount (cols : List Column) : Nat :=
  match cols with
  | [] => 0
  | c :: _ => c.Size

/-- The value tuple of row `row` of a table of columns, in a runtime (`none`
when a column has no such row). -/
def Runtime.row {F : Type} (run : Runtime F) (cols : List Column) (row : Nat) :
    Option (List F) :=
  cols.mapM (fun c => (c.GetAssignment run).Get row)

/-- Row `row` of the included table is required: there is no included filter,
or the value of the filter at that row is not zero. -/
def QueryInclusion.required {F : Type} [CommRing F] (r : QueryInclusion) (run : Runtime F)
    (row : Nat) : Prop :=
  ∀ f, r.IncludedFilter = some f → ∃ x, (f.GetAssignment run).Get row = some x ∧ x ≠ 0

/-- Row `row` of fragment `frag` is eligible: there is no including filter, or
the filter of the fragment has value one at that row. -/
def QueryInclusion.eligible {F : Type} [CommRing F] (r : QueryInclusion) (run : Runtime F)
    (frag row : Nat) : Prop :=
  ∀ filters, r.IncludingFilter = some filters →
    ∃ f : Column, filters[frag]? = some f ∧ (f.GetAssignment run).Get row = some 1

/-- Every column that the query references: both tables and both filters. -/
def QueryInclusion.columns (r : QueryInclusion) : List Column :=
  r.Included ++ r.Including.flatten ++ r.IncludedFilter.toList ++ r.IncludingFilter.getD []

/-- The shape invariants of an inclusion query. -/
structure QueryInclusion.WellFormed (r : QueryInclusion) : Prop where
  included_ne : r.Included ≠ []
  including_ne : r.Including ≠ []
  ncol : ∀ cols ∈ r.Including, cols.length = r.Included.length
  frag_size : ∀ cols ∈ r.Including, ∀ c ∈ cols, c.Size = rowCount cols
  including_filter : ∀ filters, r.IncludingFilter = some filters →
    ∀ (frag : Nat) (cols : List Column), r.Including[frag]? = some cols →
      ∃ f : Column, filters[frag]? = some f ∧ f.Size = rowCount cols
  included_size : ∀ c ∈ r.Included, c.Size = rowCount r.Included
  included_filter : ∀ f, r.IncludedFilter = some f → f.Size = rowCount r.Included

/-- The runtime assigns to every column of the query a vector of the declared
size of the column. -/
def Runtime.WellSized {F : Type} (run : Runtime F) (r : QueryInclusion) : Prop :=
  ∀ c ∈ r.columns, (c.GetAssignment run).length = c.Size

/-- The field element `x` is found in the membership set: it is the fingerprint
of an eligible row of some fragment of the including table. -/
def QueryInclusion.found {F : Type} [CommRing F] (r : QueryInclusion) (run : Runtime F)
    (alpha x : F) : Prop :=
  ∃ (frag : Nat) (cols : List Column) (row : Nat),
    r.Including[frag]? = some cols ∧ row < rowCount cols ∧ r.eligible run frag row ∧
    rowLinComb alpha row (cols.map (fun pol => pol.GetAssignment run)) = some x

/-- Row `row` of the included table is matched: some eligible row of some
fragment of the including table has the same fingerprint. -/
def QueryInclusion.rowMatched {F : Type} [CommRing F] (r : QueryInclusion) (run : Runtime F)
    (alpha : F) (row : Nat) : Prop :=
  ∃ (frag : Nat) (cols : List Column) (row' : Nat),
    r.Including[frag]? = some cols ∧ row' < rowCount cols ∧ r.eligible run frag row' ∧
    ∃ t t', run.row r.Included row = some t ∧ run.row cols row' = some t' ∧
      fingerprint alpha t = fingerprint alpha t'

/-- The condition of `Check` that makes row `row` of fragment `frag` eligible,
as a Boolean: there is no including filter, or the filter of the fragment has
value one at that row. -/
def QueryInclusion.isEligible {F : Type} [CommRing F] [DecidableEq F] (r : QueryInclusion)
    (run : Runtime F) (frag row : Nat) : Bool :=
  match r.IncludingFilter with
  | none => true
  | some filters =>
    match filters[frag]? with
    | none => false
    | some f => decide ((f.GetAssignment run).Get row = some 1)

/-- The eligible rows of the including table, as pairs of a fragment and a row
of it; their number is the number `E` of eligible including rows. -/
def QueryInclusion.eligibleRows {F : Type} [CommRing F] [DecidableEq F] (r : QueryInclusion)
    (run : Runtime F) : List (Nat × Nat) :=
  (List.range r.Including.length).flatMap (fun frag =>
    ((List.range (rowCount ((r.Including[frag]?).getD []))).filter
      (fun row => r.isEligible run frag row)).map (fun row => (frag, row)))

/-! ## Example tables

Small tables over the integers modulo 13, used to instantiate the properties.
The values are small: the fingerprints that are equal (or different) below are
equal (or different) as integers too, hence in every field of large
characteristic. -/

/-- A fresh builder context. -/
def exAPI : API := { scope := { path := [] }, numMetadata := 0, queries := fun _ => [] }

/-- The metadata given to the first query of `exAPI`. -/
def exMetadata : metadata := { scope := { path := [] }, name := "", tags := [], doc := "", id := 0 }

/-- First column of a two-row included table. -/
def exA : Column := { name := "A", size := 2, round := 0 }

/-- Second column of a two-row included table. -/
def exB : Column := { name := "B", size := 2, round := 0 }

/-- First column of a three-row including fragment. -/
def exT0 : Column := { name := "T0", size := 3, round := 1 }

/-- Second column of a three-row including fragment. -/
def exT1 : Column := { name := "T1", size := 3, round := 0 }

/-- First column of a one-row including fragment. -/
def exU0 : Column := { name := "U0", size := 1, round := 0 }

/-- Second column of a one-row including fragment. -/
def exU1 : Column := { name := "U1", size := 1, round := 0 }

/-- The query "rows of (A, B) are among the rows of (T0, T1)", without filters. -/
def exQueryT : QueryInclusion :=
  { Included := [exA, exB], Including := [[exT0, exT1]], IncludedFilter := none,
    IncludingFilter := none, metadata := exMetadata, subQuery := { round := 1 } }

/-- The query "rows of (A, B) are among the rows of (U0, U1)", without filters. -/
def exQueryU : QueryInclusion :=
  { Included := [exA, exB], Including := [[exU0, exU1]], IncludedFilter := none,
    IncludingFilter := none, metadata := exMetadata, subQuery := { round := 0 } }

/-- Included rows `(1,2)`, `(3,4)`; including rows `(1,2)`, `(3,4)`, `(5,6)`. -/
def exRunValid : Runtime (ZMod 13) :=
  { assignment := fun c =>
      if c = exA then [1, 3] else if c = exB then [2, 4]
      else if c = exT0 then [1, 3, 5] else if c = exT1 then [2, 4, 6]
      else List.replicate c.size 0 }

/-- Included rows `(1,2)`, `(9,9)`; the single including row `(1,2)`. -/
def exRunViolation : Runtime (ZMod 13) :=
  { assignment := fun c =>
      if c = exA then [1, 9] else if c = exB then [2, 9]
      else if c = exU0 then [1] else if c = exU1 then [2]
      else List.replicate c.size 0 }

/-- Included rows `(1,2)`, `(2,1)`; the single including row `(1,2)`. -/
def exRunCollision : Runtime (ZMod 13) :=
  { assignment := fun c =>
      if c = exA then [1, 2] else if c = exB then [2, 1]
      else if c = exU0 then [1] else if c = exU1 then [2]
      else List.replicate c.size 0 }

/-- Included rows `(9,9)`, `(8,8)`; the single including row `(1,2)`. -/
def exRunTwoAbsent : Runtime (ZMod 13) :=
  { assignment := fun c =>
      if c = exA then [9, 8] else if c = exB then [9, 8]
      else if c = exU0 then [1] else if c = exU1 then [2]
      else List.replicate c.size 0 }

/-- A filter column for a two-row included table. -/
def exFI : Column := { name := "FI", size := 2, round := 0 }

/-- A filter column for a three-row including fragment. -/
def exFT : Column := { name := "FT", size := 3, round := 0 }

/-- The query "the rows of (A, B) selected by FI are among the rows of (U0, U1)". -/
def exQueryFI : QueryInclusion :=
  { Included := [exA, exB], Including := [[exU0, exU1]], IncludedFilter := some exFI,
    IncludingFilter := none, metadata := exMetadata, subQuery := { round := 0 } }

/-- The query "the rows of (A, B) are among the rows of (T0, T1) selected by FT". -/
def exQueryFT : QueryInclusion :=
  { Included := [exA, exB], Including := [[exT0, exT1]], IncludedFilter := none,
    IncludingFilter := some [exFT], metadata := exMetadata, subQuery := { round := 1 } }

/-- Included rows `(1,2)`, `(9,9)` with filter values `1`, `0`; the single
including row `(1,2)`. -/
def exRunFI₁ : Runtime (ZMod 13) :=
  { assignment := fun c =>
      if c = exA then [1, 9] else if c = exB then [2, 9]
      else if c = exU0 then [1] else if c = exU1 then [2]
      else if c = exFI then [1, 0]
      else List.replicate c.size 0 }

/-- The runtime `exRunFI₁` with the filtered-out included row replaced by `(7,5)`. -/
def exRunFI₂ : Runtime (ZMod 13) :=
  { assignment := fun c =>
      if c = exA then [1, 7] else if c = exB then [2, 5]
      else if c = exU0 then [1] else if c = exU1 then [2]
      else if c = exFI then [1, 0]
      else List.replicate c.size 0 }

/-- Included rows `(1,2)`, `(5,6)`; including rows `(1,2)`, `(3,4)`, `(5,6)` with
filter values `1`, `1`, `0`. -/
def exRunFT₁ : Runtime (ZMod 13) :=
  { assignment := fun c =>
      if c = exA then [1, 5] else if c = exB then [2, 6]
      else if c = exT0 then [1, 3, 5] else if c = exT1 then [2, 4, 6]
      else if c = exFT then [1, 1, 0]
      else List.replicate c.size 0 }

/-- The runtime `exRunFT₁` with the filtered-out including row replaced by `(8,8)`. -/
def exRunFT₂ : Runtime (ZMod 13) :=
  { assignment := fun c =>
      if c = exA then [1, 5] else if c = exB then [2, 6]
      else if c = exT0 then [1, 3, 8] else if c = exT1 then [2, 4, 8]
      else if c = exFT then [1, 1, 0]
      else List.replicate c.size 0 }

/-- First column of a two-row including fragment. -/
def exQ0 : Column := { name := "Q0", size := 2, round := 0 }

/-- Second column of a two-row including fragment. -/
def exQ1 : Column := { name := "Q1", size := 2, round := 0 }

/-- A filter column for a one-row including fragment. -/
def exFP : Column := { name := "FP", size := 1, round := 0 }

/-- A filter column for a two-row including fragment. -/
def exFQ : Column := { name := "FQ", size := 2, round := 0 }

/-- The query `exQueryFT` with the including table split after its first row
into the fragments (U0, U1) and (Q0, Q1), filtered by FP and FQ. -/
def exQuerySplit : QueryInclusion :=
  { Included := [exA, exB], Including := [[exU0, exU1], [exQ0, exQ1]], IncludedFilter := none,
    IncludingFilter := some [exFP, exFQ], metadata := exMetadata, subQuery := { round := 0 } }

/-- Included rows `(1,2)`, `(5,6)`; including rows `(1,2)`, `(3,4)`, `(5,6)` with
filter values `1`, `1`, `0`, held both in one table and split after the first
row. -/
def exRunSplit : Runtime (ZMod 13) :=
  { assignment := fun c =>
      if c = exA then [1, 5] else if c = exB then [2, 6]
      else if c = exT0 then [1, 3, 5] else if c = exT1 then [2, 4, 6]
      else if c = exFT then [1, 1, 0]
      else if c = exU0 then [1] else if c = exU1 then [2]
      else if c = exQ0 then [3, 5] else if c = exQ1 then [4, 6]
      else if c = exFP then [1] else if c = exFQ then [1, 0]
      else List.replicate c.size 0 }

/-- A range query of scope `a` with id 0. -/
def exRange₀ : QueryRange :=
  { Handle := exA, B := 16,
    metadata := { scope := { path := ["a"] }, name := "", tags := [], doc := "", id := 0 },
    subQuery := { round := 0 } }

/-- A range query of scope `a` with id 1. -/
def exRange₁ : QueryRange :=
  { Handle := exB, B := 16,
    metadata := { scope := { path := ["a"] }, name := "", tags := [], doc := "", id := 1 },
    subQuery := { round := 0 } }

/-- A range query of scope `b` with id 2. -/
def exRange₂ : QueryRange :=
  { Handle := exB, B := 16,
    metadata := { scope := { path := ["b"] }, name := "", tags := [], doc := "", id := 2 },
    subQuery := { round := 0 } }

/-! ## Lemmas on rows and fingerprints -/

theorem mapM_get_map {F : Type} (run : Runtime F) (row : Nat) (cols : List Column) :
    (cols.map (fun pol => pol.GetAssignment run)).mapM (fun (v : SmartVector F) => v.Get row)
      = run.row cols row := by
  induction cols with
  | nil => rfl
  | cons c cs ih =>
    simp only [List.map_cons, List.mapM_cons, Runtime.row] at ih ⊢
    rw [ih]

theorem rowLinComb_assignment {F : Type} [CommRing F] (run : Runtime F) (alpha : F)
    (row : Nat) (cols : List Column) :
    rowLinComb alpha row (cols.map (fun pol => pol.GetAssignment run))
      = (run.row cols row).map (fingerprint alpha) := by
  unfold rowLinComb
  rw [mapM_get_map]

theorem row_eq_some {F : Type} (run : Runtime F) (row : Nat) (cols : List Column)
    (h : ∀ c ∈ cols, row < (c.GetAssignment run).length) :
    ∃ t, run.row cols row = some t ∧ t.length = cols.length := by
  induction cols with
  | nil => exact ⟨[], rfl, rfl⟩
  | cons c cs ih =>
    obtain ⟨t, ht, hl⟩ := ih (fun c' hc' => h c' (List.mem_cons_of_mem _ hc'))
    have hc : row < (c.GetAssignment run).length := h c (List.mem_cons_self _ _)
    refine ⟨(c.GetAssignment run)[row] :: t, ?_, by simp [hl]⟩
    simp only [Runtime.row, List.mapM_cons] at ht ⊢
    rw [ht]
    simp [SmartVector.Get, List.getElem?_eq_getElem hc]

/-! ## The loops of `Check` -/

theorem forIncludingRow_spec {F : Type} [CommRing F] [DecidableEq F]
    (r : QueryInclusion) (alpha : F) (including : List (List (SmartVector F)))
    (filterIncluding : List (SmartVector F)) (frag : Nat) (cols : List (SmartVector F))
    (hcols : including[frag]? = some cols) (rows : List Nat)
    (hfilt : r.IsFilteredOnIncluding = true →
      ∃ f : SmartVector F, filterIncluding[frag]? = some f ∧ ∀ row ∈ rows, row < f.length)
    (hlen : ∀ row ∈ rows, ∃ x, rowLinComb alpha row cols = some x) (set : List F) :
    ∃ set', QueryInclusion.Check.forIncludingRow r alpha including filterIncluding frag rows set
        = some set' ∧
      ∀ x, x ∈ set' ↔ x ∈ set ∨ ∃ row ∈ rows,
        (r.IsFilteredOnIncluding = true →
          ∃ f : SmartVector F, filterIncluding[frag]? = some f ∧ f.Get row = some 1) ∧
        rowLinComb alpha row cols = some x := by
  induction rows generalizing set with
  | nil => exact ⟨set, rfl, by simp⟩
  | cons row rows ih =>
    have hfilt' : r.IsFilteredOnIncluding = true →
        ∃ f : SmartVector F, filterIncluding[frag]? = some f ∧ ∀ row ∈ rows, row < f.length := by
      intro h
      obtain ⟨f, hf, hb⟩ := hfilt h
      exact ⟨f, hf, fun row' h' => hb row' (List.mem_cons_of_mem _ h')⟩
    have hlen' : ∀ row ∈ rows, ∃ x, rowLinComb alpha row cols = some x :=
      fun row' h' => hlen row' (List.mem_cons_of_mem _ h')
    obtain ⟨y, hy⟩ := hlen row (List.mem_cons_self _ _)
    simp only [QueryInclusion.Check.forIncludingRow]
    cases hF : r.IsFilteredOnIncluding with
    | false =>
      obtain ⟨set', hs, hm⟩ := ih hfilt' hlen' (y :: set)
      simp only [hF, Bool.not_false, if_true, hcols, Option.some_bind, hy]
      refine ⟨set', hs, fun x => ?_⟩
      rw [hm x]
      simp only [hF, List.mem_cons, Bool.false_eq_true, false_implies, true_and]
      constructor
      · rintro (h | h)
        · rcases h with h | h
          · exact Or.inr ⟨row, Or.inl rfl, by rw [hy, h]⟩
          · exact Or.inl h
        · obtain ⟨row', h', hx⟩ := h
          exact Or.inr ⟨row', Or.inr h', hx⟩
      · rintro (h | ⟨row', h' | h', hx⟩)
        · exact Or.inl (Or.inr h)
        · subst h'
          rw [hy] at hx
          exact Or.inl (Or.inl (Option.some.inj hx).symm)
        · exact Or.inr ⟨row', h', hx⟩
    | true =>
      obtain ⟨f, hf, hb⟩ := hfilt hF
      have hrow : row < f.length := hb row (List.mem_cons_self _ _)
      have hget : f.Get row = some f[row] := by
        simp [SmartVector.Get, List.getElem?_eq_getElem hrow]
      by_cases h1 : f[row] = 1
      · obtain ⟨set', hs, hm⟩ := ih hfilt' hlen' (y :: set)
        simp only [hF, Bool.not_true, Bool.false_eq_true, if_false, hf, Option.some_bind, hget,
          Option.map_some', h1, decide_True, hcols, hy]
        refine ⟨set', hs, fun x => ?_⟩
        rw [hm x]
        simp only [List.mem_cons, true_implies, Option.some.injEq, exists_eq_left', hF, hf]
        constructor
        · rintro (h | h)
          · rcases h with h | h
            · exact Or.inr ⟨row, Or.inl rfl, by rw [hget, h1], by rw [hy, h]⟩
            · exact Or.inl h
          · obtain ⟨row', h', hx⟩ := h
            exact Or.inr ⟨row', Or.inr h', hx⟩
        · rintro (h | ⟨row', h' | h', hx⟩)
          · exact Or.inl (Or.inr h)
          · subst h'
            rw [hy] at hx
            exact Or.inl (Or.inl (Option.some.inj hx.2).symm)
          · exact Or.inr ⟨row', h', hx⟩
      · obtain ⟨set', hs, hm⟩ := ih hfilt' hlen' set
        simp only [hF, Bool.not_true, Bool.false_eq_true, if_false, hf, Option.some_bind, hget,
          Option.map_some', h1, decide_False]
        refine ⟨set', hs, fun x => ?_⟩
        rw [hm x]
        simp only [List.mem_cons, true_implies, Option.some.injEq, exists_eq_left', hF, hf]
        constructor
        · rintro (h | ⟨row', h', hx⟩)
          · exact Or.inl h
          · exact Or.inr ⟨row', Or.inr h', hx⟩
        · rintro (h | ⟨row', h' | h', hx⟩)
          · exact Or.inl h
          · subst h'
            rw [hget] at hx
            exact absurd (Option.some.inj hx.1) h1
          · exact Or.inr ⟨row', h', hx⟩

theorem rowCount_of_head (cols : List Column) (c0 : Column) (h : cols[0]? = some c0) :
    rowCount cols = c0.Size := by
  cases cols with
  | nil => simp at h
  | cons c cs =>
    simp only [List.getElem?_cons_zero, Option.some.injEq] at h
    simp [rowCount, h]

theorem forFrag_spec {F : Type} [CommRing F] [DecidableEq F]
    (r : QueryInclusion) (alpha : F) (including : List (List (SmartVector F)))
    (filterIncluding : List (SmartVector F)) (frags : List Nat)
    (hfrag : ∀ frag ∈ frags, ∃ (cols : List Column) (c0 : Column) (vcols : List (SmartVector F)),
      r.Including[frag]? = some cols ∧ cols[0]? = some c0 ∧ including[frag]? = some vcols ∧
      (r.IsFilteredOnIncluding = true →
        ∃ f : SmartVector F, filterIncluding[frag]? = some f ∧ c0.Size ≤ f.length) ∧
      ∀ row < c0.Size, ∃ x, rowLinComb alpha row vcols = some x)
    (set : List F) :
    ∃ set', QueryInclusion.Check.forFrag r alpha including filterIncluding frags set = some set' ∧
      ∀ x, x ∈ set' ↔ x ∈ set ∨ ∃ frag ∈ frags, ∃ (cols : List Column) (vcols : List (SmartVector F)),
        r.Including[frag]? = some cols ∧ including[frag]? = some vcols ∧
        ∃ row < rowCount cols,
          (r.IsFilteredOnIncluding = true →
            ∃ f : SmartVector F, filterIncluding[frag]? = some f ∧ f.Get row = some 1) ∧
          rowLinComb alpha row vcols = some x := by
  induction frags generalizing set with
  | nil => exact ⟨set, rfl, by simp⟩
  | cons frag frags ih =>
    obtain ⟨cols, c0, vcols, hc, h0, hv, hf, hl⟩ := hfrag frag (List.mem_cons_self _ _)
    have hrc : rowCount cols = c0.Size := rowCount_of_head cols c0 h0
    obtain ⟨set₁, hs₁, hm₁⟩ := forIncludingRow_spec r alpha including filterIncluding frag vcols hv
      (List.range c0.Size)
      (fun h => by
        obtain ⟨f, hff, hle⟩ := hf h
        exact ⟨f, hff, fun row hrow => lt_of_lt_of_le (List.mem_range.mp hrow) hle⟩)
      (fun row hrow => hl row (List.mem_range.mp hrow)) set
    obtain ⟨set₂, hs₂, hm₂⟩ := ih (fun frag' h' => hfrag frag' (List.mem_cons_of_mem _ h')) set₁
    refine ⟨set₂, ?_, fun x => ?_⟩
    · simp only [QueryInclusion.Check.forFrag, hc, Option.some_bind, h0, hs₁, hs₂]
    · rw [hm₂ x, hm₁ x]
      constructor
      · rintro ((h | ⟨row, hrow, he, hx⟩) | ⟨frag', h', rest⟩)
        · exact Or.inl h
        · exact Or.inr ⟨frag, List.mem_cons_self _ _, cols, vcols, hc, hv, row,
            by rw [hrc]; exact List.mem_range.mp hrow, he, hx⟩
        · exact Or.inr ⟨frag', List.mem_cons_of_mem _ h', rest⟩
      · rintro (h | ⟨frag', h', cols', vcols', hc', hv', row, hrow, he, hx⟩)
        · exact Or.inl (Or.inl h)
        · rcases List.mem_cons.mp h' with h' | h'
          · subst h'
            rw [hc] at hc'
            rw [hv] at hv'
            cases hc'
            cases hv'
            exact Or.inl (Or.inr ⟨row, List.mem_range.mpr (by rw [← hrc]; exact hrow), he, hx⟩)
          · exact Or.inr ⟨frag', h', cols', vcols', hc', hv', row, hrow, he, hx⟩

/-! ## The query read through a well-sized runtime -/

theorem mem_columns_included (r : QueryInclusion) (c : Column) (h : c ∈ r.Included) :
    c ∈ r.columns := by
  simp [QueryInclusion.columns, h]

theorem mem_columns_including (r : QueryInclusion) (cols : List Column) (c : Column)
    (hcols : cols ∈ r.Including) (h : c ∈ cols) : c ∈ r.columns := by
  simp only [QueryInclusion.columns, List.mem_append, List.mem_flatten]
  exact Or.inl (Or.inl (Or.inr ⟨cols, hcols, h⟩))

theorem mem_columns_includedFilter (r : QueryInclusion) (f : Column)
    (h : r.IncludedFilter = some f) : f ∈ r.columns := by
  simp [QueryInclusion.columns, h]

theorem mem_columns_includingFilter (r : QueryInclusion) (filters : List Column) (f : Column)
    (h : r.IncludingFilter = some filters) (hf : f ∈ filters) : f ∈ r.columns := by
  simp [QueryInclusion.columns, h, hf]

theorem fragment_rows {F : Type} [CommRing F] (r : QueryInclusion) (run : Runtime F)
    (alpha : F) (hrun : run.WellSized r) (cols : List Column) (hcols : cols ∈ r.Including)
    (hsize : ∀ c ∈ cols, c.Size = rowCount cols) (row : Nat) (hrow : row < rowCount cols) :
    ∃ t, run.row cols row = some t ∧ t.length = cols.length ∧
      rowLinComb alpha row (cols.map (fun pol => pol.GetAssignment run))
        = some (fingerprint alpha t) := by
  obtain ⟨t, ht, hl⟩ := row_eq_some run row cols (fun c hc => by
    rw [hrun c (mem_columns_including r cols c hcols hc), hsize c hc]
    exact hrow)
  exact ⟨t, ht, hl, by rw [rowLinComb_assignment, ht]; rfl⟩

theorem included_rows {F : Type} [CommRing F] (r : QueryInclusion) (run : Runtime F)
    (alpha : F) (hr : r.WellFormed) (hrun : run.WellSized r) (row : Nat)
    (hrow : row < rowCount r.Included) :
    ∃ t, run.row r.Included row = some t ∧ t.length = r.Included.length ∧
      rowLinComb alpha row (r.Included.map (fun pol => pol.GetAssignment run))
        = some (fingerprint alpha t) := by
  obtain ⟨t, ht, hl⟩ := row_eq_some run row r.Included (fun c hc => by
    rw [hrun c (mem_columns_included r c hc), hr.included_size c hc]
    exact hrow)
  exact ⟨t, ht, hl, by rw [rowLinComb_assignment, ht]; rfl⟩

theorem filterIncluding_get {F : Type} (r : QueryInclusion) (run : Runtime F)
    (filters : List Column) (h : r.IncludingFilter = some filters) (frag : Nat) :
    (if r.IsFilteredOnIncluding then
        (r.IncludingFilter.getD []).map (fun pol => pol.GetAssignment run)
      else ([] : List (SmartVector F)))[frag]?
      = (filters[frag]?).map (fun pol => pol.GetAssignment run) := by
  simp [QueryInclusion.IsFilteredOnIncluding, h, List.getElem?_map]

theorem eligible_iff {F : Type} [CommRing F] (r : QueryInclusion) (run : Runtime F)
    (frag row : Nat) :
    r.eligible run frag row ↔
      (r.IsFilteredOnIncluding = true →
        ∃ f : SmartVector F,
          (if r.IsFilteredOnIncluding then
            (r.IncludingFilter.getD []).map (fun pol => pol.GetAssignment run)
          else ([] : List (SmartVector F)))[frag]? = some f ∧ f.Get row = some 1) := by
  unfold QueryInclusion.eligible
  cases hif : r.IncludingFilter with
  | none => simp [QueryInclusion.IsFilteredOnIncluding, hif]
  | some filters =>
    have hF : r.IsFilteredOnIncluding = true := by
      simp [QueryInclusion.IsFilteredOnIncluding, hif]
    have hget := filterIncluding_get (F := F) r run filters hif frag
    simp only [hif] at hget
    rw [hget]
    simp only [Option.some.injEq, forall_eq', hF, true_implies]
    constructor
    · rintro ⟨f, hf, hg⟩
      exact ⟨f.GetAssignment run, by rw [hf]; rfl, hg⟩
    · rintro ⟨v, hv, hg⟩
      cases hfr : filters[frag]? with
      | none => rw [hfr] at hv; simp at hv
      | some f =>
        rw [hfr] at hv
        simp only [Option.map_some', Option.some.injEq] at hv
        exact ⟨f, rfl, by rw [hv]; exact hg⟩

theorem inclusionSet_spec {F : Type} [CommRing F] [DecidableEq F]
    (r : QueryInclusion) (run : Runtime F) (alpha : F)
    (hr : r.WellFormed) (hrun : run.WellSized r) :
    ∃ set, QueryInclusion.Check.forFrag r alpha
        (r.Including.map (fun frag => frag.map (fun pol => pol.GetAssignment run)))
        (if r.IsFilteredOnIncluding then
          (r.IncludingFilter.getD []).map (fun pol => pol.GetAssignment run)
        else [])
        (List.range r.Including.length) [] = some set ∧
      ∀ x, x ∈ set ↔ r.found run alpha x := by
  obtain ⟨set, hs, hm⟩ := forFrag_spec r alpha
    (r.Including.map (fun frag => frag.map (fun pol => pol.GetAssignment run)))
    (if r.IsFilteredOnIncluding then
      (r.IncludingFilter.getD []).map (fun pol => pol.GetAssignment run)
    else [])
    (List.range r.Including.length)
    (fun frag hfrag => by
      have hlt : frag < r.Including.length := List.mem_range.mp hfrag
      have hc : r.Including[frag]? = some r.Including[frag] := List.getElem?_eq_getElem hlt
      have hmem : r.Including[frag] ∈ r.Including := List.getElem_mem hlt
      have hpos : 0 < (r.Including[frag]).length := by
        rw [hr.ncol _ hmem]
        exact List.length_pos.mpr hr.included_ne
      have h0 : (r.Including[frag])[0]? = some (r.Including[frag])[0] :=
        List.getElem?_eq_getElem hpos
      have hrc := rowCount_of_head _ _ h0
      refine ⟨r.Including[frag], (r.Including[frag])[0],
        (r.Including[frag]).map (fun pol => pol.GetAssignment run), hc, h0, ?_, ?_, ?_⟩
      · rw [List.getElem?_map, hc]; rfl
      · intro hF
        cases hif : r.IncludingFilter with
        | none => simp [QueryInclusion.IsFilteredOnIncluding, hif] at hF
        | some filters =>
          obtain ⟨f, hf, hsz⟩ := hr.including_filter filters hif frag _ hc
          refine ⟨f.GetAssignment run, ?_, ?_⟩
          · rw [← hif, filterIncluding_get r run filters hif frag, hf]; rfl
          · rw [hrun f (mem_columns_includingFilter r filters f hif (List.getElem?_mem hf)),
              hsz, hrc]
      · intro row hrow
        obtain ⟨t, _, _, hx⟩ := fragment_rows r run alpha hrun _ hmem (hr.frag_size _ hmem) row
          (by rw [hrc]; exact hrow)
        exact ⟨_, hx⟩) []
  refine ⟨set, hs, fun x => ?_⟩
  rw [hm x]
  simp only [List.not_mem_nil, false_or, QueryInclusion.found]
  constructor
  · rintro ⟨frag, _, cols, vcols, hc, hv, row, hrow, he, hx⟩
    rw [List.getElem?_map, hc] at hv
    cases hv
    exact ⟨frag, cols, row, hc, hrow, (eligible_iff r run frag row).mpr he, hx⟩
  · rintro ⟨frag, cols, row, hc, hrow, he, hx⟩
    have hlt : frag < r.Including.length := by
      by_contra hge
      rw [List.getElem?_eq_none (Nat.le_of_not_lt hge)] at hc
      cases hc
    exact ⟨frag, List.mem_range.mpr hlt, cols, _, hc, by rw [List.getElem?_map, hc]; rfl,
      row, hrow, (eligible_iff r run frag row).mp he, hx⟩

/-! ## The loop over the rows of the included table -/

theorem forIncludedRow_skip {F : Type} [CommRing F] [DecidableEq F]
    (r : QueryInclusion) (alpha : F) (included : List (SmartVector F))
    (filterIncluded : Option (SmartVector F)) (set : List F) (row : Nat) (rows : List Nat)
    (f : SmartVector F) (hF : r.IsFilteredOnIncluded = true) (hf : filterIncluded = some f)
    (h0 : f.Get row = some 0) :
    QueryInclusion.Check.forIncludedRow r alpha included filterIncluded set (row :: rows)
      = QueryInclusion.Check.forIncludedRow r alpha included filterIncluded set rows := by
  simp [QueryInclusion.Check.forIncludedRow, hF, hf, h0]

theorem forIncludedRow_required {F : Type} [CommRing F] [DecidableEq F]
    (r : QueryInclusion) (alpha : F) (included : List (SmartVector F))
    (filterIncluded : Option (SmartVector F)) (set : List F) (row : Nat) (rows : List Nat)
    (hreq : r.IsFilteredOnIncluded = true →
      ∃ (f : SmartVector F) (x : F), filterIncluded = some f ∧ f.Get row = some x ∧ x ≠ 0) :
    QueryInclusion.Check.forIncludedRow r alpha included filterIncluded set (row :: rows)
      = match rowLinComb alpha row included with
        | none => none
        | some rand =>
          if rand ∈ set then
            QueryInclusion.Check.forIncludedRow r alpha included filterIncluded set rows
          else
            (QueryInclusion.Check.notFoundRow r included row).map (error.rowNotFound row) := by
  cases hF : r.IsFilteredOnIncluded with
  | false => simp [QueryInclusion.Check.forIncludedRow, hF]
  | true =>
    obtain ⟨f, x, hf, hx, hne⟩ := hreq hF
    simp [QueryInclusion.Check.forIncludedRow, hF, hf, hx, hne]

theorem forIncludedRow_spec {F : Type} [CommRing F] [DecidableEq F]
    (r : QueryInclusion) (alpha : F) (included : List (SmartVector F))
    (filterIncluded : Option (SmartVector F)) (set : List F) (rows : List Nat)
    (hfilt : r.IsFilteredOnIncluded = true →
      ∃ f : SmartVector F, filterIncluded = some f ∧ ∀ row ∈ rows, row < f.length)
    (hlen : ∀ row ∈ rows, ∃ x, rowLinComb alpha row included = some x)
    (hnf : ∀ row ∈ rows, ∃ nf, QueryInclusion.Check.notFoundRow r included row = some nf) :
    (QueryInclusion.Check.forIncludedRow r alpha included filterIncluded set rows = some error.nil ∧
      ∀ row ∈ rows,
        (r.IsFilteredOnIncluded = true →
          ∃ (f : SmartVector F) (x : F), filterIncluded = some f ∧ f.Get row = some x ∧ x ≠ 0) →
        ∃ x, rowLinComb alpha row included = some x ∧ x ∈ set) ∨
    (∃ (rows₁ : List Nat) (row : Nat) (rows₂ : List Nat) (nf : List (String × F)),
      rows = rows₁ ++ row :: rows₂ ∧
      QueryInclusion.Check.forIncludedRow r alpha included filterIncluded set rows
        = some (error.rowNotFound row nf) ∧
      QueryInclusion.Check.notFoundRow r included row = some nf ∧
      (∀ row' ∈ rows₁,
        (r.IsFilteredOnIncluded = true →
          ∃ (f : SmartVector F) (x : F), filterIncluded = some f ∧ f.Get row' = some x ∧ x ≠ 0) →
        ∃ x, rowLinComb alpha row' included = some x ∧ x ∈ set) ∧
      (r.IsFilteredOnIncluded = true →
        ∃ (f : SmartVector F) (x : F), filterIncluded = some f ∧ f.Get row = some x ∧ x ≠ 0) ∧
      ∃ x, rowLinComb alpha row included = some x ∧ x ∉ set) := by
  induction rows with
  | nil => exact Or.inl ⟨rfl, by simp⟩
  | cons row rows ih =>
    have ih' := ih
      (fun h => by
        obtain ⟨f, hf, hb⟩ := hfilt h
        exact ⟨f, hf, fun row' h' => hb row' (List.mem_cons_of_mem _ h')⟩)
      (fun row' h' => hlen row' (List.mem_cons_of_mem _ h'))
      (fun row' h' => hnf row' (List.mem_cons_of_mem _ h'))
    obtain ⟨y, hy⟩ := hlen row (List.mem_cons_self _ _)
    obtain ⟨nf, hnfrow⟩ := hnf row (List.mem_cons_self _ _)
    by_cases hreq : r.IsFilteredOnIncluded = true →
        ∃ (f : SmartVector F) (x : F), filterIncluded = some f ∧ f.Get row = some x ∧ x ≠ 0
    · rw [forIncludedRow_required r alpha included filterIncluded set row rows hreq, hy]
      by_cases hin : y ∈ set
      · simp only [hin, if_true]
        rcases ih' with ⟨hres, hall⟩ | ⟨rows₁, row₁, rows₂, nf₁, hrows, hres, hnf₁, hall, hreq₁, hx₁⟩
        · refine Or.inl ⟨hres, fun row' h' hr' => ?_⟩
          rcases List.mem_cons.mp h' with h' | h'
          · subst h'; exact ⟨y, hy, hin⟩
          · exact hall row' h' hr'
        · refine Or.inr ⟨row :: rows₁, row₁, rows₂, nf₁, by rw [hrows]; rfl, hres, hnf₁,
            fun row' h' hr' => ?_, hreq₁, hx₁⟩
          rcases List.mem_cons.mp h' with h' | h'
          · subst h'; exact ⟨y, hy, hin⟩
          · exact hall row' h' hr'
      · simp only [hin, if_false, hnfrow, Option.map_some']
        exact Or.inr ⟨[], row, rows, nf, rfl, rfl, hnfrow, by simp, hreq, y, hy, hin⟩
    · have hF : r.IsFilteredOnIncluded = true := by
        by_contra hF
        exact hreq (fun h => absurd h hF)
      obtain ⟨f, hf, hb⟩ := hfilt hF
      have hrow : row < f.length := hb row (List.mem_cons_self _ _)
      have hget : f.Get row = some f[row] := by
        simp [SmartVector.Get, List.getElem?_eq_getElem hrow]
      have h0 : f[row] = 0 := by
        by_contra hne
        exact hreq (fun _ => ⟨f, f[row], hf, hget, hne⟩)
      rw [forIncludedRow_skip r alpha included filterIncluded set row rows f hF hf
        (by rw [hget, h0])]
      rcases ih' with ⟨hres, hall⟩ | ⟨rows₁, row₁, rows₂, nf₁, hrows, hres, hnf₁, hall, hreq₁, hx₁⟩
      · refine Or.inl ⟨hres, fun row' h' hr' => ?_⟩
        rcases List.mem_cons.mp h' with h' | h'
        · subst h'; exact absurd hr' hreq
        · exact hall row' h' hr'
      · refine Or.inr ⟨row :: rows₁, row₁, rows₂, nf₁, by rw [hrows]; rfl, hres, hnf₁,
          fun row' h' hr' => ?_, hreq₁, hx₁⟩
        rcases List.mem_cons.mp h' with h' | h'
        · subst h'; exact absurd hr' hreq
        · exact hall row' h' hr'

theorem forIncludedRow_congr {F : Type} [CommRing F] [DecidableEq F]
    (r r' : QueryInclusion) (alpha : F) (included included' : List (SmartVector F))
    (filterIncluded : Option (SmartVector F)) (set set' : List F) (rows : List Nat)
    (hF : r.IsFilteredOnIncluded = r'.IsFilteredOnIncluded)
    (h : ∀ row ∈ rows,
      (r.IsFilteredOnIncluded = true →
        ∃ (f : SmartVector F) (x : F), filterIncluded = some f ∧ f.Get row = some x ∧ x ≠ 0) →
      rowLinComb alpha row included = rowLinComb alpha row included' ∧
      (∀ x, rowLinComb alpha row included = some x → (x ∈ set ↔ x ∈ set')) ∧
      QueryInclusion.Check.notFoundRow r included row
        = QueryInclusion.Check.notFoundRow r' included' row) :
    QueryInclusion.Check.forIncludedRow r alpha included filterIncluded set rows
      = QueryInclusion.Check.forIncludedRow r' alpha included' filterIncluded set' rows := by
  induction rows with
  | nil => rfl
  | cons row rows ih =>
    have ih' := ih (fun row' h' => h row' (List.mem_cons_of_mem _ h'))
    by_cases hreq : r.IsFilteredOnIncluded = true →
        ∃ (f : SmartVector F) (x : F), filterIncluded = some f ∧ f.Get row = some x ∧ x ≠ 0
    · obtain ⟨hlc, hset, hnf⟩ := h row (List.mem_cons_self _ _) hreq
      rw [forIncludedRow_required r alpha included filterIncluded set row rows hreq,
        forIncludedRow_required r' alpha included' filterIncluded set' row rows
          (by rw [← hF]; exact hreq), ← hlc, ← hnf, ih']
      cases hy : rowLinComb alpha row included with
      | none => rfl
      | some y =>
        simp only
        by_cases hin : y ∈ set
        · rw [if_pos hin, if_pos ((hset y hy).mp hin)]
        · rw [if_neg hin, if_neg (fun h' => hin ((hset y hy).mpr h'))]
    · have hT : r.IsFilteredOnIncluded = true := by
        by_contra hT
        exact hreq (fun h => absurd h hT)
      simp only [QueryInclusion.Check.forIncludedRow, ← hF, hT, if_true]
      cases hfi : filterIncluded with
      | none => rfl
      | some f =>
        cases hg : f.Get row with
        | none => simp [hg]
        | some x =>
          by_cases hx : x = 0
          · simp only [Option.some_bind, hg, Option.map_some', hx, decide_True]
            rw [hfi] at ih'
            exact ih'
          · exact absurd (fun _ => ⟨f, x, hfi, hg, hx⟩) hreq

/-! ## The pairs listed in the error -/

theorem mapM_map_option {α β γ : Type} (f : α → β) (g : β → Option γ) (l : List α) :
    (l.map f).mapM g = l.mapM (fun a => g (f a)) := by
  induction l with
  | nil => rfl
  | cons a l ih => simp only [List.map_cons, List.mapM_cons, ih]

theorem mapM_range_eq {α β : Type} (l : List α) (k : Nat → Option β) (h : α → Option β)
    (hk : ∀ i a, l[i]? = some a → k i = h a) :
    (List.range l.length).mapM k = l.mapM h := by
  induction l generalizing k with
  | nil => rfl
  | cons a l ih =>
    rw [List.length_cons, List.range_succ_eq_map, List.mapM_cons, List.mapM_cons,
      mapM_map_option, hk 0 a (List.getElem?_cons_zero ..),
      ih (fun i => k (i + 1)) (fun i b hb => hk (i + 1) b (by simpa using hb))]

theorem notFoundRow_eq {F : Type} (r : QueryInclusion) (run : Runtime F) (row : Nat) :
    QueryInclusion.Check.notFoundRow r (r.Included.map (fun pol => pol.GetAssignment run)) row
      = (run.row r.Included row).map (fun t => (r.Included.map Column.String).zip t) := by
  unfold QueryInclusion.Check.notFoundRow
  rw [List.length_map, mapM_range_eq r.Included _
    (fun col => ((col.GetAssignment run).Get row).map (fun x => (col.String, x)))
    (fun i a ha => by
      simp only [List.getElem?_map, ha, Option.map_some', Option.some_bind]
      cases (a.GetAssignment run).Get row <;> rfl)]
  unfold Runtime.row
  generalize r.Included = cs
  induction cs with
  | nil => rfl
  | cons c cs ih =>
    simp only [List.mapM_cons, ih]
    cases (c.GetAssignment run).Get row with
    | none => rfl
    | some x =>
      cases List.mapM (fun c => (c.GetAssignment run).Get row) cs <;> rfl

/-! ## The check of a well-formed query in a well-sized runtime -/

theorem required_iff {F : Type} [CommRing F] (r : QueryInclusion) (run : Runtime F)
    (row : Nat) :
    r.required run row ↔
      (r.IsFilteredOnIncluded = true →
        ∃ (f : SmartVector F) (x : F),
          (if r.IsFilteredOnIncluded then r.IncludedFilter.map (fun pol => pol.GetAssignment run)
            else none) = some f ∧ f.Get row = some x ∧ x ≠ 0) := by
  unfold QueryInclusion.required
  cases hif : r.IncludedFilter with
  | none => simp [QueryInclusion.IsFilteredOnIncluded, hif]
  | some c =>
    simp only [QueryInclusion.IsFilteredOnIncluded, hif, Option.isSome_some, if_true,
      Option.map_some', Option.some.injEq, forall_eq', true_implies]
    constructor
    · rintro ⟨x, hx, hne⟩
      exact ⟨_, x, rfl, hx, hne⟩
    · rintro ⟨f, x, hf, hx, hne⟩
      subst hf
      exact ⟨x, hx, hne⟩

theorem range_split (n : Nat) (rows₁ : List Nat) (row : Nat) (rows₂ : List Nat)
    (h : List.range n = rows₁ ++ row :: rows₂) : rows₁ = List.range row ∧ row < n := by
  have hlen : rows₁.length + (rows₂.length + 1) = n := by
    have := congrArg List.length h
    simp only [List.length_range, List.length_append, List.length_cons] at this
    exact this.symm
  have hlt : rows₁.length < n := by omega
  have hrow : row = rows₁.length := by
    have h1 : (List.range n)[rows₁.length]? = some rows₁.length := List.getElem?_range hlt
    rw [h, List.getElem?_append_right (Nat.le_refl _), Nat.sub_self] at h1
    simpa using h1
  have htake : rows₁ = List.take rows₁.length (List.range n) := by
    rw [h, List.take_left]
  rw [List.take_range, Nat.min_eq_left (Nat.le_of_lt hlt)] at htake
  rw [hrow]
  exact ⟨htake, hlt⟩

theorem Check_unfold {F : Type} [CommRing F] [DecidableEq F]
    (r : QueryInclusion) (run : Runtime F) (alpha : F)
    (hr : r.WellFormed) (hrun : run.WellSized r) :
    ∃ set, (∀ x, x ∈ set ↔ r.found run alpha x) ∧
      r.Check run alpha = QueryInclusion.Check.forIncludedRow r alpha
        (r.Included.map (fun pol => pol.GetAssignment run))
        (if r.IsFilteredOnIncluded then r.IncludedFilter.map (fun pol => pol.GetAssignment run)
          else none)
        set (List.range (rowCount r.Included)) := by
  obtain ⟨set, hs, hm⟩ := inclusionSet_spec r run alpha hr hrun
  refine ⟨set, hm, ?_⟩
  have hpos : 0 < r.Included.length := List.length_pos.mpr hr.included_ne
  have h0 : r.Included[0]? = some r.Included[0] := List.getElem?_eq_getElem hpos
  have hrc := rowCount_of_head _ _ h0
  simp only [QueryInclusion.Check, hs, h0, hrc]

theorem Check_spec {F : Type} [CommRing F] [DecidableEq F]
    (r : QueryInclusion) (run : Runtime F) (alpha : F)
    (hr : r.WellFormed) (hrun : run.WellSized r) :
    (r.Check run alpha = some error.nil ∧
      ∀ row < rowCount r.Included, r.required run row → r.rowMatched run alpha row) ∨
    (∃ (row : Nat) (t : List F),
      r.Check run alpha
        = some (error.rowNotFound row ((r.Included.map Column.String).zip t)) ∧
      row < rowCount r.Included ∧ run.row r.Included row = some t ∧
      (∀ row' < row, r.required run row' → r.rowMatched run alpha row') ∧
      r.required run row ∧ ¬ r.rowMatched run alpha row) := by
  obtain ⟨set, hm, hcheck⟩ := Check_unfold r run alpha hr hrun
  have hrows : ∀ row ∈ List.range (rowCount r.Included),
      ∃ t, run.row r.Included row = some t ∧ t.length = r.Included.length ∧
        rowLinComb alpha row (r.Included.map (fun pol => pol.GetAssignment run))
          = some (fingerprint alpha t) :=
    fun row hrow => included_rows r run alpha hr hrun row (List.mem_range.mp hrow)
  have hfound : ∀ row,
      (∃ x, rowLinComb alpha row (r.Included.map (fun pol => pol.GetAssignment run)) = some x ∧
        x ∈ set) ↔ r.rowMatched run alpha row := by
    intro row
    simp only [QueryInclusion.rowMatched, hm, QueryInclusion.found, rowLinComb_assignment,
      Option.map_eq_some']
    constructor
    · rintro ⟨x, ⟨t, ht, hx⟩, frag, cols, row', hc, hrow', he, t', ht', hx'⟩
      exact ⟨frag, cols, row', hc, hrow', he, t, t', ht, ht', by rw [hx, hx']⟩
    · rintro ⟨frag, cols, row', hc, hrow', he, t, t', ht, ht', hfp⟩
      exact ⟨fingerprint alpha t, ⟨t, ht, rfl⟩, frag, cols, row', hc, hrow', he, t', ht',
        hfp.symm⟩
  rcases forIncludedRow_spec r alpha (r.Included.map (fun pol => pol.GetAssignment run))
      (if r.IsFilteredOnIncluded then r.IncludedFilter.map (fun pol => pol.GetAssignment run)
        else none)
      set (List.range (rowCount r.Included))
      (fun hF => by
        cases hif : r.IncludedFilter with
        | none => simp [QueryInclusion.IsFilteredOnIncluded, hif] at hF
        | some c =>
          refine ⟨c.GetAssignment run, by simp [QueryInclusion.IsFilteredOnIncluded, hif], ?_⟩
          intro row hrow
          rw [hrun c (mem_columns_includedFilter r c hif), hr.included_filter c hif]
          exact List.mem_range.mp hrow)
      (fun row hrow => by
        obtain ⟨t, _, _, hx⟩ := hrows row hrow
        exact ⟨_, hx⟩)
      (fun row hrow => by
        obtain ⟨t, ht, _, _⟩ := hrows row hrow
        exact ⟨_, by rw [notFoundRow_eq, ht]; rfl⟩)
    with ⟨hres, hall⟩ | ⟨rows₁, row, rows₂, nf, hsplit, hres, hnf, hall, hreq, x, hx, hnin⟩
  · refine Or.inl ⟨by rw [hcheck, hres], fun row hrow hreq => ?_⟩
    exact (hfound row).mp
      (hall row (List.mem_range.mpr hrow) ((required_iff r run row).mp hreq))
  · obtain ⟨h₁, hlt⟩ := range_split _ _ _ _ hsplit
    obtain ⟨t, ht, _, hfp⟩ := hrows row (List.mem_range.mpr hlt)
    rw [notFoundRow_eq, ht] at hnf
    simp only [Option.map_some', Option.some.injEq] at hnf
    refine Or.inr ⟨row, t, by rw [hcheck, hres, hnf], hlt, ht, fun row' hrow' hreq' => ?_,
      (required_iff r run row).mpr hreq, ?_⟩
    · exact (hfound row').mp
        (hall row' (by rw [h₁]; exact List.mem_range.mpr hrow')
          ((required_iff r run row').mp hreq'))
    · intro hf
      obtain ⟨x', hx', hin'⟩ := (hfound row).mpr hf
      rw [hx] at hx'
      cases hx'
      exact hnin hin'

theorem Check_error_first {F : Type} [CommRing F] [DecidableEq F]
    (r : QueryInclusion) (run : Runtime F) (alpha : F)
    (hr : r.WellFormed) (hrun : run.WellSized r) (row : Nat) (nf : List (String × F))
    (h : r.Check run alpha = some (error.rowNotFound row nf)) :
    row < rowCount r.Included ∧ r.required run row ∧ ¬ r.rowMatched run alpha row ∧
      (∀ row' < row, r.required run row' → r.rowMatched run alpha row') ∧
      ∃ t, run.row r.Included row = some t ∧ nf = (r.Included.map Column.String).zip t := by
  rcases Check_spec r run alpha hr hrun with ⟨hres, _⟩ | ⟨row₁, t, hres, hlt, ht, hall, hreq, hnot⟩
  · rw [hres] at h
    cases h
  · rw [hres] at h
    simp only [Option.some.injEq, error.rowNotFound.injEq] at h
    obtain ⟨h₁, h₂⟩ := h
    subst h₁
    exact ⟨hlt, hreq, hnot, hall, t, ht, h₂.symm⟩

theorem exQueryT_wellFormed : exQueryT.WellFormed :=
  ⟨by decide, by decide, by decide, by decide, by simp [exQueryT], by decide, by simp [exQueryT]⟩

theorem exQueryU_wellFormed : exQueryU.WellFormed :=
  ⟨by decide, by decide, by decide, by decide, by simp [exQueryU], by decide, by simp [exQueryU]⟩

theorem exRunValid_wellSized : exRunValid.WellSized exQueryT := by
  unfold Runtime.WellSized
  decide

theorem exRunViolation_wellSized : exRunViolation.WellSized exQueryU := by
  unfold Runtime.WellSized
  decide

/-! ## Runtimes that agree on part of the tables -/

theorem mapM_congr_option {α β : Type} (f g : α → Option β) (l : List α)
    (h : ∀ a ∈ l, f a = g a) : l.mapM f = l.mapM g := by
  induction l with
  | nil => rfl
  | cons a l ih =>
    rw [List.mapM_cons, List.mapM_cons, h a (List.mem_cons_self _ _),
      ih (fun b hb => h b (List.mem_cons_of_mem _ hb))]

theorem row_congr {F : Type} (run₁ run₂ : Runtime F) (cols : List Column) (row : Nat)
    (h : ∀ c ∈ cols, (c.GetAssignment run₁).Get row = (c.GetAssignment run₂).Get row) :
    run₁.row cols row = run₂.row cols row :=
  mapM_congr_option _ _ cols h

theorem found_congr {F : Type} [CommRing F] (r : QueryInclusion) (run₁ run₂ : Runtime F)
    (alpha : F)
    (h : ∀ (frag : Nat) (cols : List Column) (row : Nat),
      r.Including[frag]? = some cols → row < rowCount cols →
      (r.eligible run₁ frag row ↔ r.eligible run₂ frag row) ∧
      (r.eligible run₁ frag row → run₁.row cols row = run₂.row cols row))
    (x : F) : r.found run₁ alpha x ↔ r.found run₂ alpha x := by
  unfold QueryInclusion.found
  constructor
  · rintro ⟨frag, cols, row, hc, hrow, he, hx⟩
    obtain ⟨hiff, hrw⟩ := h frag cols row hc hrow
    refine ⟨frag, cols, row, hc, hrow, hiff.mp he, ?_⟩
    rw [rowLinComb_assignment, ← hrw he, ← rowLinComb_assignment]
    exact hx
  · rintro ⟨frag, cols, row, hc, hrow, he, hx⟩
    obtain ⟨hiff, hrw⟩ := h frag cols row hc hrow
    refine ⟨frag, cols, row, hc, hrow, hiff.mpr he, ?_⟩
    rw [rowLinComb_assignment, hrw (hiff.mpr he), ← rowLinComb_assignment]
    exact hx

theorem eligible_congr {F : Type} [CommRing F] (r : QueryInclusion) (run₁ run₂ : Runtime F)
    (h : ∀ c ∈ r.IncludingFilter.getD [], c.GetAssignment run₁ = c.GetAssignment run₂)
    (frag row : Nat) : r.eligible run₁ frag row ↔ r.eligible run₂ frag row := by
  unfold QueryInclusion.eligible
  constructor
  · intro he filters hf
    obtain ⟨f, hfr, hg⟩ := he filters hf
    refine ⟨f, hfr, ?_⟩
    rw [← h f (by rw [hf]; exact List.getElem?_mem hfr)]
    exact hg
  · intro he filters hf
    obtain ⟨f, hfr, hg⟩ := he filters hf
    refine ⟨f, hfr, ?_⟩
    rw [h f (by rw [hf]; exact List.getElem?_mem hfr)]
    exact hg

theorem filterIncluded_congr {F : Type} (r : QueryInclusion) (run₁ run₂ : Runtime F)
    (h : ∀ c ∈ r.IncludedFilter.toList, c.GetAssignment run₁ = c.GetAssignment run₂) :
    (if r.IsFilteredOnIncluded then r.IncludedFilter.map (fun pol => pol.GetAssignment run₁)
      else none)
      = (if r.IsFilteredOnIncluded then r.IncludedFilter.map (fun pol => pol.GetAssignment run₂)
        else none) := by
  cases hif : r.IncludedFilter with
  | none => rfl
  | some c =>
    have hc := h c (by simp [hif])
    simp only [Option.map_some', hc]

/-! ## An including table split into two fragments -/

theorem rowLinComb_take {F : Type} [CommRing F] (run : Runtime F) (alpha : F)
    (T : List Column) (k row : Nat) (h : row < k) :
    rowLinComb alpha row (T.map (fun c => (c.GetAssignment run).take k))
      = rowLinComb alpha row (T.map (fun c => c.GetAssignment run)) := by
  unfold rowLinComb
  rw [mapM_map_option, mapM_map_option]
  refine congrArg _ (mapM_congr_option _ _ T (fun c _ => ?_))
  simp only [SmartVector.Get, List.getElem?_take_of_lt h]

theorem rowLinComb_drop {F : Type} [CommRing F] (run : Runtime F) (alpha : F)
    (T : List Column) (k row : Nat) :
    rowLinComb alpha row (T.map (fun c => (c.GetAssignment run).drop k))
      = rowLinComb alpha (k + row) (T.map (fun c => c.GetAssignment run)) := by
  unfold rowLinComb
  rw [mapM_map_option, mapM_map_option]
  refine congrArg _ (mapM_congr_option _ _ T (fun c _ => ?_))
  simp only [SmartVector.Get, List.getElem?_drop]

theorem rowCount_of_map {F : Type} (run : Runtime F) (T T' : List Column)
    (h : Column → SmartVector F)
    (hmap : T'.map (fun c => c.GetAssignment run) = T.map h) (hne : T ≠ [])
    (hlen : ∀ c ∈ T', (c.GetAssignment run).length = rowCount T') :
    ∃ c, T[0]? = some c ∧ rowCount T' = (h c).length := by
  cases T with
  | nil => exact absurd rfl hne
  | cons c T =>
    cases T' with
    | nil => simp at hmap
    | cons c' T' =>
      simp only [List.map_cons, List.cons.injEq] at hmap
      exact ⟨c, List.getElem?_cons_zero .., by rw [← hlen c' (List.mem_cons_self _ _), hmap.1]⟩

theorem eligible_fragmentation {F : Type} [CommRing F] (r₁ r₂ : QueryInclusion)
    (run : Runtime F) (k : Nat)
    (hF : (r₁.IncludingFilter = none ∧ r₂.IncludingFilter = none) ∨
      ∃ f f₁ f₂ : Column, r₁.IncludingFilter = some [f] ∧ r₂.IncludingFilter = some [f₁, f₂] ∧
        f₁.GetAssignment run = (f.GetAssignment run).take k ∧
        f₂.GetAssignment run = (f.GetAssignment run).drop k) :
    (∀ row < k, r₂.eligible run 0 row ↔ r₁.eligible run 0 row) ∧
    (∀ row, r₂.eligible run 1 row ↔ r₁.eligible run 0 (k + row)) := by
  rcases hF with ⟨h₁, h₂⟩ | ⟨f, f₁, f₂, h₁, h₂, hf₁, hf₂⟩
  · simp [QueryInclusion.eligible, h₁, h₂]
  · constructor
    · intro row hrow
      simp [QueryInclusion.eligible, h₁, h₂, hf₁, SmartVector.Get,
        List.getElem?_take_of_lt hrow]
    · intro row
      simp [QueryInclusion.eligible, h₁, h₂, hf₂, SmartVector.Get, List.getElem?_drop]

theorem found_fragmentation {F : Type} [CommRing F] (r₁ r₂ : QueryInclusion)
    (run : Runtime F) (alpha : F) (T T₁ T₂ : List Column) (k : Nat)
    (hT : r₁.Including = [T]) (hsplit : r₂.Including = [T₁, T₂])
    (hT₁ : T₁.map (fun c => c.GetAssignment run)
      = T.map (fun c => (c.GetAssignment run).take k))
    (hT₂ : T₂.map (fun c => c.GetAssignment run)
      = T.map (fun c => (c.GetAssignment run).drop k))
    (hF : (r₁.IncludingFilter = none ∧ r₂.IncludingFilter = none) ∨
      ∃ f f₁ f₂ : Column, r₁.IncludingFilter = some [f] ∧ r₂.IncludingFilter = some [f₁, f₂] ∧
        f₁.GetAssignment run = (f.GetAssignment run).take k ∧
        f₂.GetAssignment run = (f.GetAssignment run).drop k)
    (hrc₁ : rowCount T₁ = min k (rowCount T)) (hrc₂ : rowCount T₂ = rowCount T - k)
    (y : F) : r₂.found run alpha y ↔ r₁.found run alpha y := by
  obtain ⟨helig₁, helig₂⟩ := eligible_fragmentation r₁ r₂ run k hF
  unfold QueryInclusion.found
  constructor
  · rintro ⟨frag, cols, row, hc, hrow, he, hx⟩
    rw [hsplit] at hc
    rcases frag with _ | _ | frag
    · simp only [List.getElem?_cons_zero, Option.some.injEq] at hc
      subst hc
      rw [hrc₁] at hrow
      have hk : row < k := lt_of_lt_of_le hrow (Nat.min_le_left _ _)
      refine ⟨0, T, row, by rw [hT]; rfl, lt_of_lt_of_le hrow (Nat.min_le_right _ _),
        (helig₁ row hk).mp he, ?_⟩
      rw [← rowLinComb_take run alpha T k row hk, ← hT₁]
      exact hx
    · simp only [List.getElem?_cons_succ, List.getElem?_cons_zero, Option.some.injEq] at hc
      subst hc
      rw [hrc₂] at hrow
      refine ⟨0, T, k + row, by rw [hT]; rfl, by omega, (helig₂ row).mp he, ?_⟩
      rw [← rowLinComb_drop run alpha T k row, ← hT₂]
      exact hx
    · simp at hc
  · rintro ⟨frag, cols, row, hc, hrow, he, hx⟩
    rw [hT] at hc
    rcases frag with _ | frag
    · simp only [List.getElem?_cons_zero, Option.some.injEq] at hc
      subst hc
      by_cases hk : row < k
      · refine ⟨0, T₁, row, by rw [hsplit]; rfl, by rw [hrc₁]; exact lt_min hk hrow,
          (helig₁ row hk).mpr he, ?_⟩
        rw [hT₁, rowLinComb_take run alpha T k row hk]
        exact hx
      · have hrow' : k + (row - k) = row := by omega
        refine ⟨1, T₂, row - k, by rw [hsplit]; rfl, by rw [hrc₂]; omega,
          (helig₂ (row - k)).mpr (by rw [hrow']; exact he), ?_⟩
        rw [hT₂, rowLinComb_drop run alpha T k (row - k), hrow']
        exact hx
    · simp at hc

/-! ## The constructor -/

theorem AllReturnEqual_size (cols : List Column)
    (h : (utils.AllReturnEqual Column.Size cols).isNone = false) :
    cols ≠ [] ∧ ∀ c ∈ cols, c.Size = rowCount cols := by
  cases cols with
  | nil => simp [utils.AllReturnEqual] at h
  | cons c cs =>
    refine ⟨List.cons_ne_nil _ _, fun c' hc' => ?_⟩
    by_cases hall : cs.all (fun arg => decide (arg.Size = c.Size)) = true
    · rcases List.mem_cons.mp hc' with h' | h'
      · rw [h']; rfl
      · have := List.all_eq_true.mp hall c' h'
        simpa [rowCount] using this
    · simp [utils.AllReturnEqual, hall] at h

theorem foldl_max_round (cols : List Column) (round : Nat) :
    round ≤ cols.foldl (fun round c => max round c.Round) round ∧
    (∀ c ∈ cols, c.Round ≤ cols.foldl (fun round c => max round c.Round) round) ∧
    (cols.foldl (fun round c => max round c.Round) round = round ∨
      ∃ c ∈ cols, c.Round = cols.foldl (fun round c => max round c.Round) round) := by
  induction cols generalizing round with
  | nil => simp
  | cons c cs ih =>
    obtain ⟨h₁, h₂, h₃⟩ := ih (max round c.Round)
    simp only [List.foldl_cons]
    refine ⟨le_trans (le_max_left _ _) h₁, fun c' hc' => ?_, ?_⟩
    · rcases List.mem_cons.mp hc' with h' | h'
      · rw [h']; exact le_trans (le_max_right _ _) h₁
      · exact h₂ c' h'
    · rcases h₃ with h | ⟨c', hc', h⟩
      · rcases le_total round c.Round with hle | hle
        · exact Or.inr ⟨c, List.mem_cons_self _ _, by rw [h, max_eq_right hle]⟩
        · exact Or.inl (by rw [h, max_eq_left hle])
      · exact Or.inr ⟨c', List.mem_cons_of_mem _ hc', h⟩

theorem forFrag_cons_some (nCol : Nat) (includingFilter : Option (List Column))
    (frag : Nat) (cols : List Column) (rest : List (List Column)) (round round' : Nat)
    (h : API.NewInclusion.forFrag nCol includingFilter frag (cols :: rest) round = some round') :
    cols.length = nCol ∧ (utils.AllReturnEqual Column.Size cols).isNone = false ∧
    ((includingFilter = none ∧
      API.NewInclusion.forFrag nCol includingFilter (frag + 1) rest
        (cols.foldl (fun round c => max round c.Round) round) = some round') ∨
     (∃ (filters : List Column) (f c0 : Column),
      includingFilter = some filters ∧ filters[frag]? = some f ∧ cols[0]? = some c0 ∧
      f.Size = c0.Size ∧
      API.NewInclusion.forFrag nCol includingFilter (frag + 1) rest
        (filters.foldl (fun round c => max round c.Round)
          (cols.foldl (fun round c => max round c.Round) round)) = some round')) := by
  unfold API.NewInclusion.forFrag at h
  by_cases hlen : cols.length = nCol
  · by_cases hall : (utils.AllReturnEqual Column.Size cols).isNone = true
    · simp [hlen, hall] at h
    · have hall' : (utils.AllReturnEqual Column.Size cols).isNone = false :=
        Bool.eq_false_iff.mpr hall
      refine ⟨hlen, hall', ?_⟩
      cases hif : includingFilter with
      | none =>
        simp only [hlen, hall', hif, ne_eq, not_true_eq_false, if_false] at h
        exact Or.inl ⟨rfl, by simpa using h⟩
      | some filters =>
        simp only [hlen, hall', hif, ne_eq, not_true_eq_false, if_false] at h
        cases hf : filters[frag]? with
        | none => simp [hf] at h
        | some f =>
          cases hc : cols[0]? with
          | none => simp [hf, hc] at h
          | some c0 =>
            by_cases hsz : f.Size = c0.Size
            · refine Or.inr ⟨filters, f, c0, rfl, hf, rfl, hsz, ?_⟩
              simpa [hf, hc, hsz] using h
            · simp [hf, hc, hsz] at h
  · simp [hlen] at h

theorem forFrag_shape (nCol : Nat) (includingFilter : Option (List Column))
    (including : List (List Column)) (frag round round' : Nat)
    (h : API.NewInclusion.forFrag nCol includingFilter frag including round = some round') :
    ∀ (i : Nat) (cols : List Column), including[i]? = some cols →
      cols.length = nCol ∧ cols ≠ [] ∧ (∀ c ∈ cols, c.Size = rowCount cols) ∧
      ∀ filters, includingFilter = some filters →
        ∃ f : Column, filters[frag + i]? = some f ∧ f.Size = rowCount cols := by
  induction including generalizing frag round with
  | nil => intro i cols hc; simp at hc
  | cons cols₀ rest ih =>
    obtain ⟨hlen, hall, hrest⟩ := forFrag_cons_some nCol includingFilter frag cols₀ rest round round' h
    obtain ⟨hne, hsize⟩ := AllReturnEqual_size cols₀ hall
    intro i cols hc
    rcases i with _ | i
    · simp only [List.getElem?_cons_zero, Option.some.injEq] at hc
      subst hc
      refine ⟨hlen, hne, hsize, fun filters hf => ?_⟩
      rcases hrest with ⟨hnone, _⟩ | ⟨filters', f, c0, hf', hfr, hc0, hsz, _⟩
      · rw [hnone] at hf; cases hf
      · rw [hf'] at hf
        cases hf
        exact ⟨f, hfr, by rw [hsz, rowCount_of_head _ _ hc0]⟩
    · simp only [List.getElem?_cons_succ] at hc
      have hstep : ∃ round₁, API.NewInclusion.forFrag nCol includingFilter (frag + 1) rest round₁
          = some round' := by
        rcases hrest with ⟨_, h'⟩ | ⟨_, _, _, _, _, _, _, h'⟩
        · exact ⟨_, h'⟩
        · exact ⟨_, h'⟩
      obtain ⟨round₁, h₁⟩ := hstep
      have := ih (frag + 1) round₁ h₁ i cols hc
      rw [show frag + 1 + i = frag + (i + 1) by omega] at this
      exact this

theorem forFrag_round (nCol : Nat) (includingFilter : Option (List Column))
    (including : List (List Column)) (frag round round' : Nat)
    (h : API.NewInclusion.forFrag nCol includingFilter frag including round = some round') :
    round ≤ round' ∧ (∀ cols ∈ including, ∀ c ∈ cols, c.Round ≤ round') ∧
    (including ≠ [] → ∀ c ∈ includingFilter.getD [], c.Round ≤ round') ∧
    (round' = round ∨
      ∃ c, (c ∈ including.flatten ∨ c ∈ includingFilter.getD []) ∧ c.Round = round') := by
  induction including generalizing frag round with
  | nil =>
    simp only [API.NewInclusion.forFrag, Option.some.injEq] at h
    subst h
    simp
  | cons cols₀ rest ih =>
    obtain ⟨_, _, hrest⟩ := forFrag_cons_some nCol includingFilter frag cols₀ rest round round' h
    obtain ⟨hc₁, hc₂, hc₃⟩ := foldl_max_round cols₀ round
    rcases hrest with ⟨hnone, h'⟩ | ⟨filters, f, c0, hf, _, _, _, h'⟩
    · obtain ⟨i₁, i₂, _, i₄⟩ := ih _ _ h'
      refine ⟨le_trans hc₁ i₁, fun cols hcols c hc => ?_, fun _ c hc => ?_, ?_⟩
      · rcases List.mem_cons.mp hcols with h'' | h''
        · subst h''; exact le_trans (hc₂ c hc) i₁
        · exact i₂ cols h'' c hc
      · simp [hnone] at hc
      · rcases i₄ with h'' | ⟨c, hc, h''⟩
        · rcases hc₃ with h₃ | ⟨c, hc, h₃⟩
          · exact Or.inl (by rw [h'', h₃])
          · exact Or.inr ⟨c, Or.inl (by simp [hc]), by rw [h'', h₃]⟩
        · refine Or.inr ⟨c, ?_, h''⟩
          rcases hc with hc | hc
          · exact Or.inl (by simp only [List.flatten_cons, List.mem_append]; exact Or.inr hc)
          · exact Or.inr hc
    · obtain ⟨hf₁, hf₂, hf₃⟩ := foldl_max_round filters
        (cols₀.foldl (fun round c => max round c.Round) round)
      obtain ⟨i₁, i₂, _, i₄⟩ := ih _ _ h'
      refine ⟨le_trans hc₁ (le_trans hf₁ i₁), fun cols hcols c hc => ?_, fun _ c hc => ?_, ?_⟩
      · rcases List.mem_cons.mp hcols with h'' | h''
        · subst h''; exact le_trans (hc₂ c hc) (le_trans hf₁ i₁)
        · exact i₂ cols h'' c hc
      · rw [hf] at hc
        exact le_trans (hf₂ c hc) i₁
      · rcases i₄ with h'' | ⟨c, hc, h''⟩
        · rcases hf₃ with h₃ | ⟨c, hc, h₃⟩
          · rcases hc₃ with h₄ | ⟨c, hc, h₄⟩
            · exact Or.inl (by rw [h'', h₃, h₄])
            · exact Or.inr ⟨c, Or.inl (by simp [hc]), by rw [h'', h₃, h₄]⟩
          · exact Or.inr ⟨c, Or.inr (by rw [hf]; exact hc), by rw [h'', h₃]⟩
        · refine Or.inr ⟨c, ?_, h''⟩
          rcases hc with hc | hc
          · exact Or.inl (by simp only [List.flatten_cons, List.mem_append]; exact Or.inr hc)
          · exact Or.inr hc

theorem NewInclusion_some (api : API) (included : List Column) (including : List (List Column))
    (includedFilter : Option Column) (includingFilter : Option (List Column))
    (q : QueryInclusion) (api' : API)
    (h : api.NewInclusion included including includedFilter includingFilter = some (q, api')) :
    q.Included = included ∧ q.Including = including ∧ q.IncludedFilter = includedFilter ∧
    q.IncludingFilter = includingFilter ∧ included ≠ [] ∧ including ≠ [] ∧
    (∃ round₁, API.NewInclusion.forFrag included.length includingFilter 0 including 0
        = some round₁ ∧
      q.subQuery.round
        = (includedFilter.toList).foldl (fun round c => max round c.Round)
            (included.foldl (fun round c => max round c.Round) round₁)) ∧
    (∀ c ∈ included, c.Size = rowCount included) ∧
    (∀ f, includedFilter = some f → f.Size = rowCount included) ∧
    q.metadata = api.newMetadata.1 ∧
    api' = (api.newMetadata.2).addToRound q.subQuery.round q := by
  unfold API.NewInclusion at h
  by_cases h1 : included.length = 0
  · simp [h1] at h
  by_cases h2 : including.length = 0
  · simp [h1, h2] at h
  simp only [h1, h2, if_false] at h
  cases hfrag : API.NewInclusion.forFrag included.length includingFilter 0 including 0 with
  | none => simp [hfrag] at h
  | some round₁ =>
    simp only [hfrag] at h
    by_cases h3 : (utils.AllReturnEqual Column.Size included).isNone = true
    · simp [h3] at h
    have h3' : (utils.AllReturnEqual Column.Size included).isNone = false :=
      Bool.eq_false_iff.mpr h3
    obtain ⟨_, hsize⟩ := AllReturnEqual_size included h3'
    have hne₁ : included ≠ [] := fun hnil => h1 (by rw [hnil]; rfl)
    have hne₂ : including ≠ [] := fun hnil => h2 (by rw [hnil]; rfl)
    simp only [h3', Bool.false_eq_true, if_false] at h
    cases hif : includedFilter with
    | none =>
      simp only [hif, Option.some.injEq, Prod.mk.injEq] at h
      obtain ⟨hq, hapi⟩ := h
      subst hq
      exact ⟨rfl, rfl, rfl, rfl, hne₁, hne₂, ⟨round₁, rfl, rfl⟩, hsize, by simp,
        rfl, hapi.symm⟩
    | some f =>
      cases hc0 : included[0]? with
      | none => simp [hif, hc0] at h
      | some c0 =>
        by_cases hsz : f.Size = c0.Size
        · simp only [hif, hc0, hsz, ne_eq, not_true_eq_false, if_false, Option.some.injEq,
            Prod.mk.injEq] at h
          obtain ⟨hq, hapi⟩ := h
          subst hq
          refine ⟨rfl, rfl, rfl, rfl, hne₁, hne₂, ⟨round₁, rfl, rfl⟩, hsize, ?_, rfl, hapi.symm⟩
          intro f' hf'
          cases hf'
          rw [hsz, rowCount_of_head _ _ hc0]
        · simp [hif, hc0, hsz] at h

/-! ## The properties of the native check -/

/-- C1: for every challenge `alpha`, every well-formed inclusion query and every
runtime that assigns to each column a vector of its declared size, `Check`
returns no error if and only if, for every required row of the included table
(no included filter, or filter value not zero at the row), there are a fragment
and an eligible row of it (no including filter, or filter value one at the row)
whose fingerprint `sum_i alpha^i * value_i` equals that of the included row. -/
theorem Check_nil_iff {F : Type} [CommRing F] [DecidableEq F]
    (r : QueryInclusion) (run : Runtime F) (alpha : F)
    (hr : r.WellFormed) (hrun : run.WellSized r) :
    r.Check run alpha = some error.nil ↔
      ∀ row < rowCount r.Included, r.required run row →
        ∃ (frag : Nat) (cols : List Column) (row' : Nat),
          r.Including[frag]? = some cols ∧ row' < rowCount cols ∧ r.eligible run frag row' ∧
          ∃ t t', run.row r.Included row = some t ∧ run.row cols row' = some t' ∧
            fingerprint alpha t = fingerprint alpha t' := by
  rcases Check_spec r run alpha hr hrun with ⟨hres, hall⟩ | ⟨row, t, hres, hlt, _, _, hreq, hnot⟩
  · exact ⟨fun _ => hall, fun _ => hres⟩
  · constructor
    · intro h
      rw [hres] at h
      cases h
    · intro h
      exact absurd (h row hlt hreq) hnot

/-- Witness of C1: the characterisation applied to the tables of `exRunValid`
with the challenge 5. -/
theorem Check_nil_iff_witness :
    exQueryT.WellFormed ∧ exRunValid.WellSized exQueryT ∧
    (exQueryT.Check exRunValid 5 = some error.nil ↔
      ∀ row < rowCount exQueryT.Included, exQueryT.required exRunValid row →
        ∃ (frag : Nat) (cols : List Column) (row' : Nat),
          exQueryT.Including[frag]? = some cols ∧ row' < rowCount cols ∧
          exQueryT.eligible exRunValid frag row' ∧
          ∃ t t', exRunValid.row exQueryT.Included row = some t ∧
            exRunValid.row cols row' = some t' ∧
            fingerprint 5 t = fingerprint 5 t') :=
  ⟨exQueryT_wellFormed, exRunValid_wellSized,
    Check_nil_iff exQueryT exRunValid 5 exQueryT_wellFormed exRunValid_wellSized⟩

/-- C2: validity, with no false negative. For every challenge `alpha`, if the
value tuple of every required included row equals the value tuple of some
eligible row of some fragment, then `Check` returns no error. -/
theorem Check_valid {F : Type} [CommRing F] [DecidableEq F]
    (r : QueryInclusion) (run : Runtime F) (alpha : F)
    (hr : r.WellFormed) (hrun : run.WellSized r)
    (h : ∀ row < rowCount r.Included, r.required run row →
      ∃ (frag : Nat) (cols : List Column) (row' : Nat),
        r.Including[frag]? = some cols ∧ row' < rowCount cols ∧ r.eligible run frag row' ∧
        run.row r.Included row = run.row cols row') :
    r.Check run alpha = some error.nil := by
  rcases Check_spec r run alpha hr hrun with ⟨hres, _⟩ | ⟨row, t, _, hlt, ht, _, hreq, hnot⟩
  · exact hres
  · obtain ⟨frag, cols, row', hc, hrow', he, heq⟩ := h row hlt hreq
    rw [ht] at heq
    exact absurd ⟨frag, cols, row', hc, hrow', he, t, t, ht, heq.symm, rfl⟩ hnot

/-- Witness of C2: the included rows `(1,2)`, `(3,4)` against one fragment with
columns `[1,3,5]` and `[2,4,6]`, with the challenge 7. -/
theorem Check_valid_witness :
    exQueryT.WellFormed ∧ exRunValid.WellSized exQueryT ∧
    (∀ row < rowCount exQueryT.Included, exQueryT.required exRunValid row →
      ∃ (frag : Nat) (cols : List Column) (row' : Nat),
        exQueryT.Including[frag]? = some cols ∧ row' < rowCount cols ∧
        exQueryT.eligible exRunValid frag row' ∧
        exRunValid.row exQueryT.Included row = exRunValid.row cols row') ∧
    exQueryT.Check exRunValid 7 = some error.nil :=
  have hrows : ∀ row < rowCount exQueryT.Included, exQueryT.required exRunValid row →
      ∃ (frag : Nat) (cols : List Column) (row' : Nat),
        exQueryT.Including[frag]? = some cols ∧ row' < rowCount cols ∧
        exQueryT.eligible exRunValid frag row' ∧
        exRunValid.row exQueryT.Included row = exRunValid.row cols row' := by
    intro row hrow _
    have hlt : row < 2 := hrow
    interval_cases row
    · exact ⟨0, [exT0, exT1], 0, rfl, by decide, fun _ hf => by simp [exQueryT] at hf, by decide⟩
    · exact ⟨0, [exT0, exT1], 1, rfl, by decide, fun _ hf => by simp [exQueryT] at hf, by decide⟩
  ⟨exQueryT_wellFormed, exRunValid_wellSized, hrows,
    Check_valid exQueryT exRunValid 7 exQueryT_wellFormed exRunValid_wellSized hrows⟩

/-- C3 (as amended): violation detection. For every challenge `alpha`, if the
fingerprint of some required included row differs from the fingerprint of every
eligible row of every fragment, then `Check` returns an error; the row it names
is the first required row that is not matched, at or before that row. -/
theorem Check_violation {F : Type} [CommRing F] [DecidableEq F]
    (r : QueryInclusion) (run : Runtime F) (alpha : F)
    (hr : r.WellFormed) (hrun : run.WellSized r) (row : Nat)
    (hrow : row < rowCount r.Included) (hreq : r.required run row)
    (habsent : ∀ (frag : Nat) (cols : List Column) (row' : Nat),
      r.Including[frag]? = some cols → row' < rowCount cols → r.eligible run frag row' →
      ∀ t t', run.row r.Included row = some t → run.row cols row' = some t' →
        fingerprint alpha t ≠ fingerprint alpha t') :
    ∃ (row₀ : Nat) (nf : List (String × F)),
      r.Check run alpha = some (error.rowNotFound row₀ nf) ∧ row₀ ≤ row ∧
      r.required run row₀ ∧ ¬ r.rowMatched run alpha row₀ ∧
      ∀ row' < row₀, r.required run row' → r.rowMatched run alpha row' := by
  have hnot : ¬ r.rowMatched run alpha row := by
    rintro ⟨frag, cols, row', hc, hrow', he, t, t', ht, ht', hfp⟩
    exact habsent frag cols row' hc hrow' he t t' ht ht' hfp
  rcases Check_spec r run alpha hr hrun with ⟨_, hall⟩ | ⟨row₁, t, hres, hlt, ht, hall, hreq₁, hnot₁⟩
  · exact absurd (hall row hrow hreq) hnot
  · refine ⟨row₁, _, hres, ?_, hreq₁, hnot₁, hall⟩
    by_contra hgt
    exact hnot (hall row (Nat.lt_of_not_le hgt) hreq)

/-- Witness of C3 (as amended): the included rows `(1,2)`, `(9,9)` against the
single including row `(1,2)`, with the challenge 5; `Check` reports row 1. -/
theorem Check_violation_witness :
    exQueryU.WellFormed ∧ exRunViolation.WellSized exQueryU ∧
    1 < rowCount exQueryU.Included ∧ exQueryU.required exRunViolation 1 ∧
    exQueryU.Check exRunViolation 5
      = some (error.rowNotFound 1 [("A", 9), ("B", 9)]) ∧
    ∃ (row₀ : Nat) (nf : List (String × ZMod 13)),
      exQueryU.Check exRunViolation 5 = some (error.rowNotFound row₀ nf) ∧ row₀ ≤ 1 ∧
      exQueryU.required exRunViolation row₀ ∧ ¬ exQueryU.rowMatched exRunViolation 5 row₀ ∧
      ∀ row' < row₀, exQueryU.required exRunViolation row' →
        exQueryU.rowMatched exRunViolation 5 row' :=
  have hreq : exQueryU.required exRunViolation 1 := fun _ hf => by simp [exQueryU] at hf
  ⟨exQueryU_wellFormed, exRunViolation_wellSized, by decide, hreq, by decide,
    Check_violation exQueryU exRunViolation 5 exQueryU_wellFormed exRunViolation_wellSized 1
      (by decide) hreq
      (by
        intro frag cols row' hc hrow' _ t t' ht ht'
        rcases frag with _ | frag
        · simp only [exQueryU, List.getElem?_cons_zero, Option.some.injEq] at hc
          subst hc
          have hlt : row' < 1 := hrow'
          interval_cases row'
          have h₁ : exRunViolation.row exQueryU.Included 1 = some [9, 9] := by decide
          have h₂ : exRunViolation.row [exU0, exU1] 0 = some [1, 2] := by decide
          rw [h₁] at ht
          rw [h₂] at ht'
          cases ht
          cases ht'
          decide
        · simp [exQueryU] at hc)⟩

/-- Counterexample to C3 as stated. With the challenge 1 the tuple `(2,1)` of
the required included row 1 is absent from the including table `(1,2)`, yet
both rows have the fingerprint 3 and `Check` returns no error. And when the
tuples `(9,9)`, `(8,8)` of rows 0 and 1 are both absent, the error names row 0,
not row 1. -/
theorem Check_violation_counterexample :
    (exQueryU.WellFormed ∧ exRunCollision.WellSized exQueryU ∧
      1 < rowCount exQueryU.Included ∧ exQueryU.required exRunCollision 1 ∧
      (∀ (frag : Nat) (cols : List Column) (row' : Nat),
        exQueryU.Including[frag]? = some cols → row' < rowCount cols →
        exQueryU.eligible exRunCollision frag row' →
        exRunCollision.row exQueryU.Included 1 ≠ exRunCollision.row cols row') ∧
      fingerprint (1 : ZMod 13) [2, 1] = 3 ∧ fingerprint (1 : ZMod 13) [1, 2] = 3 ∧
      exQueryU.Check exRunCollision 1 = some error.nil) ∧
    (exQueryU.WellFormed ∧ exRunTwoAbsent.WellSized exQueryU ∧
      1 < rowCount exQueryU.Included ∧ exQueryU.required exRunTwoAbsent 1 ∧
      (∀ (frag : Nat) (cols : List Column) (row' : Nat),
        exQueryU.Including[frag]? = some cols → row' < rowCount cols →
        exQueryU.eligible exRunTwoAbsent frag row' →
        exRunTwoAbsent.row exQueryU.Included 1 ≠ exRunTwoAbsent.row cols row') ∧
      exQueryU.Check exRunTwoAbsent 5 = some (error.rowNotFound 0 [("A", 9), ("B", 9)])) := by
  have hfrag : ∀ (run : Runtime (ZMod 13)),
      run.row exQueryU.Included 1 ≠ run.row [exU0, exU1] 0 →
      ∀ (frag : Nat) (cols : List Column) (row' : Nat),
        exQueryU.Including[frag]? = some cols → row' < rowCount cols →
        exQueryU.eligible run frag row' →
        run.row exQueryU.Included 1 ≠ run.row cols row' := by
    intro run hne frag cols row' hc hrow' _
    rcases frag with _ | frag
    · simp only [exQueryU, List.getElem?_cons_zero, Option.some.injEq] at hc
      subst hc
      have hlt : row' < 1 := hrow'
      interval_cases row'
      exact hne
    · simp [exQueryU] at hc
  exact ⟨⟨exQueryU_wellFormed, by unfold Runtime.WellSized; decide, by decide,
      fun _ hf => by simp [exQueryU] at hf, hfrag exRunCollision (by decide), by decide,
      by decide, by decide⟩,
    ⟨exQueryU_wellFormed, by unfold Runtime.WellSized; decide, by decide,
      fun _ hf => by simp [exQueryU] at hf, hfrag exRunTwoAbsent (by decide), by decide⟩⟩

/-- C4: included-filter exclusion. For every challenge `alpha` and every query
with an included filter, `Check` returns the same result (no error, or the same
error with the same row) in two runtimes that agree on the including table and
on the filters and whose included columns agree on every row where the included
filter is not zero; and a row whose filter value is zero is never the row of
the error. -/
theorem Check_included_filter {F : Type} [CommRing F] [DecidableEq F]
    (r : QueryInclusion) (run₁ run₂ : Runtime F) (alpha : F) (f : Column)
    (hf : r.IncludedFilter = some f)
    (hr : r.WellFormed) (hrun₁ : run₁.WellSized r) (hrun₂ : run₂.WellSized r)
    (hsame : ∀ c, c ∈ r.Including.flatten ∨ c = f ∨ c ∈ r.IncludingFilter.getD [] →
      c.GetAssignment run₁ = c.GetAssignment run₂)
    (hagree : ∀ (row : Nat) (x : F), (f.GetAssignment run₁).Get row = some x → x ≠ 0 →
      ∀ c ∈ r.Included, (c.GetAssignment run₁).Get row = (c.GetAssignment run₂).Get row) :
    r.Check run₁ alpha = r.Check run₂ alpha ∧
    ∀ (row : Nat) (nf : List (String × F)),
      r.Check run₁ alpha = some (error.rowNotFound row nf) →
      (f.GetAssignment run₁).Get row ≠ some 0 := by
  constructor
  · obtain ⟨set₁, hm₁, hc₁⟩ := Check_unfold r run₁ alpha hr hrun₁
    obtain ⟨set₂, hm₂, hc₂⟩ := Check_unfold r run₂ alpha hr hrun₂
    rw [hc₁, hc₂, ← filterIncluded_congr r run₁ run₂
      (fun c hc => hsame c (Or.inr (Or.inl (by simpa [hf] using hc))))]
    apply forIncludedRow_congr r r alpha _ _ _ set₁ set₂ _ rfl
    intro row _ hreq
    obtain ⟨x, hx, hne⟩ := (required_iff r run₁ row).mpr hreq f hf
    have hrowEq : run₁.row r.Included row = run₂.row r.Included row :=
      row_congr run₁ run₂ r.Included row (hagree row x hx hne)
    refine ⟨by rw [rowLinComb_assignment, rowLinComb_assignment, hrowEq], fun y _ => ?_,
      by rw [notFoundRow_eq, notFoundRow_eq, hrowEq]⟩
    rw [hm₁ y, hm₂ y]
    exact found_congr r run₁ run₂ alpha (fun frag cols row' hc _ =>
      ⟨eligible_congr r run₁ run₂ (fun c hc' => hsame c (Or.inr (Or.inr hc'))) frag row',
        fun _ => row_congr run₁ run₂ cols row' (fun c hc' => by
          rw [hsame c (Or.inl (List.mem_flatten.mpr ⟨cols, List.getElem?_mem hc, hc'⟩))])⟩) y
  · intro row nf hres h0
    obtain ⟨_, hreq, _⟩ := Check_error_first r run₁ alpha hr hrun₁ row nf hres
    obtain ⟨x, hx, hne⟩ := hreq f hf
    rw [hx] at h0
    exact hne (Option.some.inj h0)

/-- Witness of C4: the included rows `(1,2)`, `(9,9)` and `(1,2)`, `(7,5)` with
filter values `1`, `0`, against the including row `(1,2)`, with the challenge 5. -/
theorem Check_included_filter_witness :
    exQueryFI.IncludedFilter = some exFI ∧ exQueryFI.WellFormed ∧
    exRunFI₁.WellSized exQueryFI ∧ exRunFI₂.WellSized exQueryFI ∧
    (∀ c, c ∈ exQueryFI.Including.flatten ∨ c = exFI ∨ c ∈ exQueryFI.IncludingFilter.getD [] →
      c.GetAssignment exRunFI₁ = c.GetAssignment exRunFI₂) ∧
    (∀ (row : Nat) (x : ZMod 13), (exFI.GetAssignment exRunFI₁).Get row = some x → x ≠ 0 →
      ∀ c ∈ exQueryFI.Included,
        (c.GetAssignment exRunFI₁).Get row = (c.GetAssignment exRunFI₂).Get row) ∧
    exQueryFI.Check exRunFI₁ 5 = some error.nil ∧
    (exQueryFI.Check exRunFI₁ 5 = exQueryFI.Check exRunFI₂ 5 ∧
      ∀ (row : Nat) (nf : List (String × ZMod 13)),
        exQueryFI.Check exRunFI₁ 5 = some (error.rowNotFound row nf) →
        (exFI.GetAssignment exRunFI₁).Get row ≠ some 0) :=
  have hwf : exQueryFI.WellFormed :=
    ⟨by decide, by decide, by decide, by decide, by simp [exQueryFI], by decide,
      by simp [exQueryFI]; decide⟩
  have hrun₁ : exRunFI₁.WellSized exQueryFI := by unfold Runtime.WellSized; decide
  have hrun₂ : exRunFI₂.WellSized exQueryFI := by unfold Runtime.WellSized; decide
  have hsame : ∀ c, c ∈ exQueryFI.Including.flatten ∨ c = exFI ∨
      c ∈ exQueryFI.IncludingFilter.getD [] →
      c.GetAssignment exRunFI₁ = c.GetAssignment exRunFI₂ := by
    intro c hc
    have hc' : c = exU0 ∨ c = exU1 ∨ c = exFI := by
      simpa [exQueryFI, or_assoc] using hc
    rcases hc' with h | h | h <;> subst h <;> decide
  have hagree : ∀ (row : Nat) (x : ZMod 13),
      (exFI.GetAssignment exRunFI₁).Get row = some x → x ≠ 0 →
      ∀ c ∈ exQueryFI.Included,
        (c.GetAssignment exRunFI₁).Get row = (c.GetAssignment exRunFI₂).Get row := by
    intro row x hx hne
    match row, hx with
    | 0, _ => decide
    | 1, hx =>
      have h0 : (exFI.GetAssignment exRunFI₁).Get 1 = some 0 := by decide
      rw [h0] at hx
      exact absurd (Option.some.inj hx).symm hne
    | row + 2, hx =>
      have hnone : (exFI.GetAssignment exRunFI₁).Get (row + 2) = none := rfl
      rw [hnone] at hx
      cases hx
  ⟨rfl, hwf, hrun₁, hrun₂, hsame, hagree, by decide,
    Check_included_filter exQueryFI exRunFI₁ exRunFI₂ 5 exFI rfl hwf hrun₁ hrun₂ hsame hagree⟩

/-- C5: including-filter exclusion. For every challenge `alpha` and every query
with an including filter, `Check` returns the same result in two runtimes that
agree on the included table and on the filters and whose including columns
agree on every row where the including filter is not zero; and a required
included row whose fingerprint is matched only by including rows with filter
value zero makes `Check` return an error. -/
theorem Check_including_filter {F : Type} [CommRing F] [DecidableEq F]
    (r : QueryInclusion) (run₁ run₂ : Runtime F) (alpha : F) (filters : List Column)
    (h10 : (1 : F) ≠ 0) (hf : r.IncludingFilter = some filters)
    (hr : r.WellFormed) (hrun₁ : run₁.WellSized r) (hrun₂ : run₂.WellSized r)
    (hsame : ∀ c, c ∈ r.Included ∨ c ∈ r.IncludedFilter.toList ∨ c ∈ filters →
      c.GetAssignment run₁ = c.GetAssignment run₂)
    (hagree : ∀ (frag : Nat) (cols : List Column) (f : Column) (row : Nat) (x : F),
      r.Including[frag]? = some cols → filters[frag]? = some f →
      (f.GetAssignment run₁).Get row = some x → x ≠ 0 →
      ∀ c ∈ cols, (c.GetAssignment run₁).Get row = (c.GetAssignment run₂).Get row) :
    r.Check run₁ alpha = r.Check run₂ alpha ∧
    ∀ row < rowCount r.Included, r.required run₁ row →
      (∀ (frag : Nat) (cols : List Column) (f : Column) (row' : Nat) (t t' : List F),
        r.Including[frag]? = some cols → filters[frag]? = some f → row' < rowCount cols →
        run₁.row r.Included row = some t → run₁.row cols row' = some t' →
        fingerprint alpha t = fingerprint alpha t' →
        (f.GetAssignment run₁).Get row' = some 0) →
      ∃ (row₀ : Nat) (nf : List (String × F)),
        r.Check run₁ alpha = some (error.rowNotFound row₀ nf) := by
  constructor
  · obtain ⟨set₁, hm₁, hc₁⟩ := Check_unfold r run₁ alpha hr hrun₁
    obtain ⟨set₂, hm₂, hc₂⟩ := Check_unfold r run₂ alpha hr hrun₂
    have hincl : r.Included.map (fun pol => pol.GetAssignment run₁)
        = r.Included.map (fun pol => pol.GetAssignment run₂) :=
      List.map_congr_left (fun c hc => hsame c (Or.inl hc))
    rw [hc₁, hc₂, ← filterIncluded_congr r run₁ run₂
      (fun c hc => hsame c (Or.inr (Or.inl hc))), ← hincl]
    apply forIncludedRow_congr r r alpha _ _ _ set₁ set₂ _ rfl
    intro row _ _
    refine ⟨rfl, fun y _ => ?_, rfl⟩
    rw [hm₁ y, hm₂ y]
    have helig : ∀ frag row', r.eligible run₁ frag row' ↔ r.eligible run₂ frag row' :=
      eligible_congr r run₁ run₂ (fun c hc => hsame c (Or.inr (Or.inr (by simpa [hf] using hc))))
    exact found_congr r run₁ run₂ alpha (fun frag cols row' hc _ =>
      ⟨helig frag row', fun he => by
        obtain ⟨f, hfr, hg⟩ := he filters hf
        exact row_congr run₁ run₂ cols row' (hagree frag cols f row' 1 hc hfr hg h10)⟩) y
  · intro row hrow hreq honly
    rcases Check_spec r run₁ alpha hr hrun₁ with ⟨_, hall⟩ | ⟨row₀, t, hres, _⟩
    · obtain ⟨frag, cols, row', hc, hrow', he, t, t', ht, ht', hfp⟩ := hall row hrow hreq
      obtain ⟨f, hfr, hg⟩ := he filters hf
      have h0 := honly frag cols f row' t t' hc hfr hrow' ht ht' hfp
      rw [hg] at h0
      exact absurd (Option.some.inj h0) h10
    · exact ⟨row₀, _, hres⟩

/-- Witness of C5: the included rows `(1,2)`, `(5,6)` against the including rows
`(1,2)`, `(3,4)`, `(5,6)` with filter values `1`, `1`, `0`, and against the same
table with the last row replaced by `(8,8)`, with the challenge 5: in both
runtimes `Check` reports row 1. -/
theorem Check_including_filter_witness :
    (1 : ZMod 13) ≠ 0 ∧ exQueryFT.IncludingFilter = some [exFT] ∧ exQueryFT.WellFormed ∧
    exRunFT₁.WellSized exQueryFT ∧ exRunFT₂.WellSized exQueryFT ∧
    (∀ c, c ∈ exQueryFT.Included ∨ c ∈ exQueryFT.IncludedFilter.toList ∨ c ∈ [exFT] →
      c.GetAssignment exRunFT₁ = c.GetAssignment exRunFT₂) ∧
    (∀ (frag : Nat) (cols : List Column) (f : Column) (row : Nat) (x : ZMod 13),
      exQueryFT.Including[frag]? = some cols → [exFT][frag]? = some f →
      (f.GetAssignment exRunFT₁).Get row = some x → x ≠ 0 →
      ∀ c ∈ cols, (c.GetAssignment exRunFT₁).Get row = (c.GetAssignment exRunFT₂).Get row) ∧
    exQueryFT.Check exRunFT₁ 5 = some (error.rowNotFound 1 [("A", 5), ("B", 6)]) ∧
    (exQueryFT.Check exRunFT₁ 5 = exQueryFT.Check exRunFT₂ 5 ∧
      ∀ row < rowCount exQueryFT.Included, exQueryFT.required exRunFT₁ row →
        (∀ (frag : Nat) (cols : List Column) (f : Column) (row' : Nat) (t t' : List (ZMod 13)),
          exQueryFT.Including[frag]? = some cols → [exFT][frag]? = some f →
          row' < rowCount cols →
          exRunFT₁.row exQueryFT.Included row = some t → exRunFT₁.row cols row' = some t' →
          fingerprint 5 t = fingerprint 5 t' →
          (f.GetAssignment exRunFT₁).Get row' = some 0) →
        ∃ (row₀ : Nat) (nf : List (String × ZMod 13)),
          exQueryFT.Check exRunFT₁ 5 = some (error.rowNotFound row₀ nf)) :=
  have hwf : exQueryFT.WellFormed :=
    ⟨by decide, by decide, by decide, by decide,
      by
        intro filters hf frag cols hc
        simp only [exQueryFT, Option.some.injEq] at hf
        subst hf
        rcases frag with _ | frag
        · simp only [exQueryFT, List.getElem?_cons_zero, Option.some.injEq] at hc
          subst hc
          exact ⟨exFT, rfl, by decide⟩
        · simp [exQueryFT] at hc,
      by decide, by simp [exQueryFT]⟩
  have hrun₁ : exRunFT₁.WellSized exQueryFT := by unfold Runtime.WellSized; decide
  have hrun₂ : exRunFT₂.WellSized exQueryFT := by unfold Runtime.WellSized; decide
  have hsame : ∀ c, c ∈ exQueryFT.Included ∨ c ∈ exQueryFT.IncludedFilter.toList ∨
      c ∈ [exFT] → c.GetAssignment exRunFT₁ = c.GetAssignment exRunFT₂ := by
    intro c hc
    have hc' : c = exA ∨ c = exB ∨ c = exFT := by
      simpa [exQueryFT, or_assoc] using hc
    rcases hc' with h | h | h <;> subst h <;> decide
  have hagree : ∀ (frag : Nat) (cols : List Column) (f : Column) (row : Nat) (x : ZMod 13),
      exQueryFT.Including[frag]? = some cols → [exFT][frag]? = some f →
      (f.GetAssignment exRunFT₁).Get row = some x → x ≠ 0 →
      ∀ c ∈ cols,
        (c.GetAssignment exRunFT₁).Get row = (c.GetAssignment exRunFT₂).Get row := by
    intro frag cols f row x hc hfr hx hne
    rcases frag with _ | frag
    · simp only [exQueryFT, List.getElem?_cons_zero, Option.some.injEq] at hc hfr
      subst hc
      subst hfr
      match row, hx with
      | 0, _ => decide
      | 1, _ => decide
      | 2, hx =>
        have h0 : (exFT.GetAssignment exRunFT₁).Get 2 = some 0 := by decide
        rw [h0] at hx
        exact absurd (Option.some.inj hx).symm hne
      | row + 3, hx =>
        have hnone : (exFT.GetAssignment exRunFT₁).Get (row + 3) = none := rfl
        rw [hnone] at hx
        cases hx
    · simp [exQueryFT] at hc
  ⟨by decide, rfl, hwf, hrun₁, hrun₂, hsame, hagree, by decide,
    Check_including_filter exQueryFT exRunFT₁ exRunFT₂ 5 [exFT] (by decide) rfl hwf hrun₁ hrun₂
      hsame hagree⟩

/-- C6: fragmentation equivalence. For every challenge `alpha`, every included
table and included filter, every including table `T` with optional filter and
every split point `k`, `Check` against the two fragments `T[0..k)` and `T[k..)`
(with the filter split in the same way) returns the same result as `Check`
against the single fragment `T`: no error in both cases, or the same error
reporting the same row. -/
theorem Check_fragmentation {F : Type} [CommRing F] [DecidableEq F]
    (r₁ r₂ : QueryInclusion) (run : Runtime F) (alpha : F) (T T₁ T₂ : List Column) (k : Nat)
    (hincluded : r₂.Included = r₁.Included) (hfilter : r₂.IncludedFilter = r₁.IncludedFilter)
    (hT : r₁.Including = [T]) (hsplit : r₂.Including = [T₁, T₂])
    (hT₁ : T₁.map (fun c => c.GetAssignment run)
      = T.map (fun c => (c.GetAssignment run).take k))
    (hT₂ : T₂.map (fun c => c.GetAssignment run)
      = T.map (fun c => (c.GetAssignment run).drop k))
    (hF : (r₁.IncludingFilter = none ∧ r₂.IncludingFilter = none) ∨
      ∃ f f₁ f₂ : Column, r₁.IncludingFilter = some [f] ∧ r₂.IncludingFilter = some [f₁, f₂] ∧
        f₁.GetAssignment run = (f.GetAssignment run).take k ∧
        f₂.GetAssignment run = (f.GetAssignment run).drop k)
    (hr₁ : r₁.WellFormed) (hr₂ : r₂.WellFormed)
    (hrun₁ : run.WellSized r₁) (hrun₂ : run.WellSized r₂) :
    r₂.Check run alpha = r₁.Check run alpha := by
  have hTmem : T ∈ r₁.Including := by rw [hT]; exact List.mem_cons_self _ _
  have hT₁mem : T₁ ∈ r₂.Including := by rw [hsplit]; exact List.mem_cons_self _ _
  have hT₂mem : T₂ ∈ r₂.Including := by
    rw [hsplit]; exact List.mem_cons_of_mem _ (List.mem_cons_self _ _)
  have hne : T ≠ [] := by
    intro h
    have := hr₁.ncol T hTmem
    rw [h] at this
    exact hr₁.included_ne (List.length_eq_zero.mp this.symm)
  have hlen : ∀ (r : QueryInclusion), r.WellFormed → run.WellSized r →
      ∀ cols ∈ r.Including, ∀ c ∈ cols, (c.GetAssignment run).length = rowCount cols :=
    fun r hr hrun cols hcols c hc => by
      rw [hrun c (mem_columns_including r cols c hcols hc), hr.frag_size cols hcols c hc]
  obtain ⟨c, hc0, hrc₁⟩ := rowCount_of_map run T T₁ _ hT₁ hne (hlen r₂ hr₂ hrun₂ T₁ hT₁mem)
  obtain ⟨c', hc0', hrc₂⟩ := rowCount_of_map run T T₂ _ hT₂ hne (hlen r₂ hr₂ hrun₂ T₂ hT₂mem)
  rw [hc0] at hc0'
  cases hc0'
  have hcT : (c.GetAssignment run).length = rowCount T :=
    hlen r₁ hr₁ hrun₁ T hTmem c (List.getElem?_mem hc0)
  rw [List.length_take, hcT] at hrc₁
  rw [List.length_drop, hcT] at hrc₂
  obtain ⟨set₁, hm₁, hc₁⟩ := Check_unfold r₁ run alpha hr₁ hrun₁
  obtain ⟨set₂, hm₂, hc₂⟩ := Check_unfold r₂ run alpha hr₂ hrun₂
  have hIF : r₂.IsFilteredOnIncluded = r₁.IsFilteredOnIncluded := by
    simp only [QueryInclusion.IsFilteredOnIncluded, hfilter]
  rw [hc₁, hc₂, hIF, hfilter, hincluded]
  apply forIncludedRow_congr r₂ r₁ alpha _ _ _ set₂ set₁ _ hIF
  intro row _ _
  refine ⟨rfl, fun y _ => ?_, ?_⟩
  · rw [hm₁ y, hm₂ y]
    exact found_fragmentation r₁ r₂ run alpha T T₁ T₂ k hT hsplit hT₁ hT₂ hF hrc₁ hrc₂ y
  · have e₂ := notFoundRow_eq r₂ run row
    rw [hincluded] at e₂
    rw [e₂, notFoundRow_eq r₁ run row]

/-- Witness of C6: the including rows `(1,2)`, `(3,4)`, `(5,6)` with filter
values `1`, `1`, `0`, in one fragment and split after the first row, with the
challenge 5: both checks report row 1 of the included rows `(1,2)`, `(5,6)`. -/
theorem Check_fragmentation_witness :
    exQuerySplit.Included = exQueryFT.Included ∧
    exQuerySplit.IncludedFilter = exQueryFT.IncludedFilter ∧
    exQueryFT.Including = [[exT0, exT1]] ∧
    exQuerySplit.Including = [[exU0, exU1], [exQ0, exQ1]] ∧
    [exU0, exU1].map (fun c => c.GetAssignment exRunSplit)
      = [exT0, exT1].map (fun c => (c.GetAssignment exRunSplit).take 1) ∧
    [exQ0, exQ1].map (fun c => c.GetAssignment exRunSplit)
      = [exT0, exT1].map (fun c => (c.GetAssignment exRunSplit).drop 1) ∧
    exQueryFT.WellFormed ∧ exQuerySplit.WellFormed ∧
    exRunSplit.WellSized exQueryFT ∧ exRunSplit.WellSized exQuerySplit ∧
    exQueryFT.Check exRunSplit 5 = some (error.rowNotFound 1 [("A", 5), ("B", 6)]) ∧
    exQuerySplit.Check exRunSplit 5 = exQueryFT.Check exRunSplit 5 :=
  have hwf₁ : exQueryFT.WellFormed :=
    ⟨by decide, by decide, by decide, by decide,
      by
        intro filters hf frag cols hc
        simp only [exQueryFT, Option.some.injEq] at hf
        subst hf
        rcases frag with _ | frag
        · simp only [exQueryFT, List.getElem?_cons_zero, Option.some.injEq] at hc
          subst hc
          exact ⟨exFT, rfl, by decide⟩
        · simp [exQueryFT] at hc,
      by decide, by simp [exQueryFT]⟩
  have hwf₂ : exQuerySplit.WellFormed :=
    ⟨by decide, by decide, by decide, by decide,
      by
        intro filters hf frag cols hc
        simp only [exQuerySplit, Option.some.injEq] at hf
        subst hf
        rcases frag with _ | _ | frag
        · simp only [exQuerySplit, List.getElem?_cons_zero, Option.some.injEq] at hc
          subst hc
          exact ⟨exFP, rfl, by decide⟩
        · simp only [exQuerySplit, List.getElem?_cons_succ, List.getElem?_cons_zero,
            Option.some.injEq] at hc
          subst hc
          exact ⟨exFQ, rfl, by decide⟩
        · simp [exQuerySplit] at hc,
      by decide, by simp [exQuerySplit]⟩
  have hrun₁ : exRunSplit.WellSized exQueryFT := by unfold Runtime.WellSized; decide
  have hrun₂ : exRunSplit.WellSized exQuerySplit := by unfold Runtime.WellSized; decide
  ⟨rfl, rfl, rfl, rfl, by decide, by decide, hwf₁, hwf₂, hrun₁, hrun₂, by decide,
    Check_fragmentation exQueryFT exQuerySplit exRunSplit 5 [exT0, exT1] [exU0, exU1]
      [exQ0, exQ1] 1 rfl rfl rfl rfl (by decide) (by decide)
      (Or.inr ⟨exFT, exFP, exFQ, rfl, rfl, by decide, by decide⟩) hwf₁ hwf₂ hrun₁ hrun₂⟩

/-! ## The properties of the constructor -/

/-- C7: construction validation. `NewInclusion` panics, returning no query,
whenever `included` is empty, `including` has no fragment, some fragment has a
number of columns other than `len(included)`, the columns of some fragment have
different sizes, an including filter is given and the size of
`includingFilter[frag]` differs from the row count of fragment `frag`, the
included columns have different sizes, or an included filter is given and its
size differs from the included row count. -/
theorem NewInclusion_panics (api : API) (included : List Column)
    (including : List (List Column)) (includedFilter : Option Column)
    (includingFilter : Option (List Column))
    (h : included = [] ∨ including = [] ∨
      (∃ cols ∈ including, cols.length ≠ included.length) ∨
      (∃ cols ∈ including, ∃ c ∈ cols, ∃ c' ∈ cols, c.Size ≠ c'.Size) ∨
      (∃ (filters : List Column) (frag : Nat) (cols : List Column) (f : Column),
        includingFilter = some filters ∧ including[frag]? = some cols ∧
        filters[frag]? = some f ∧ f.Size ≠ rowCount cols) ∨
      (∃ c ∈ included, ∃ c' ∈ included, c.Size ≠ c'.Size) ∨
      (∃ f, includedFilter = some f ∧ f.Size ≠ rowCount included)) :
    api.NewInclusion included including includedFilter includingFilter = none := by
  cases hres : api.NewInclusion included including includedFilter includingFilter with
  | none => rfl
  | some p =>
    obtain ⟨q, api'⟩ := p
    obtain ⟨_, _, _, _, hne₁, hne₂, ⟨round₁, hfrag, _⟩, hsize, hfilter, _, _⟩ :=
      NewInclusion_some api included including includedFilter includingFilter q api' hres
    have hshape := forFrag_shape included.length includingFilter including 0 0 round₁ hfrag
    exfalso
    rcases h with h | h | ⟨cols, hcols, h⟩ | ⟨cols, hcols, c, hc, c', hc', h⟩ |
      ⟨filters, frag, cols, f, hf, hcols, hfr, h⟩ | ⟨c, hc, c', hc', h⟩ | ⟨f, hf, h⟩
    · exact hne₁ h
    · exact hne₂ h
    · obtain ⟨i, hi⟩ := List.mem_iff_getElem?.mp hcols
      exact h (hshape i cols hi).1
    · obtain ⟨i, hi⟩ := List.mem_iff_getElem?.mp hcols
      obtain ⟨_, _, hsz, _⟩ := hshape i cols hi
      exact h (by rw [hsz c hc, hsz c' hc'])
    · obtain ⟨_, _, _, hflt⟩ := hshape frag cols hcols
      obtain ⟨f', hf', hsz⟩ := hflt filters hf
      rw [Nat.zero_add, hfr] at hf'
      cases hf'
      exact h hsz
    · exact h (by rw [hsize c hc, hsize c' hc'])
    · exact h (hfilter f hf)

/-- Witness of C7: a second fragment with one column against an included table
of two columns. -/
theorem NewInclusion_panics_witness :
    (∃ cols ∈ [[exT0, exT1], [exU0]], cols.length ≠ [exA, exB].length) ∧
    exAPI.NewInclusion [exA, exB] [[exT0, exT1], [exU0]] none none = none :=
  ⟨⟨[exU0], by decide, by decide⟩,
    NewInclusion_panics exAPI [exA, exB] [[exT0, exT1], [exU0]] none none
      (Or.inr (Or.inr (Or.inl ⟨[exU0], by decide, by decide⟩)))⟩

/-- C8: every query that `NewInclusion` returns satisfies the shape invariants:
`Included` is non-empty; every fragment of `Including` is non-empty and has
`len(Included)` columns; within a fragment all columns have one size and, when
an including filter is present, `IncludingFilter[frag]` has that size; all
`Included` columns have one size and the included filter, when present, has
that size. -/
theorem NewInclusion_invariants (api : API) (included : List Column)
    (including : List (List Column)) (includedFilter : Option Column)
    (includingFilter : Option (List Column)) (q : QueryInclusion) (api' : API)
    (h : api.NewInclusion included including includedFilter includingFilter = some (q, api')) :
    q.Included ≠ [] ∧
    (∀ cols ∈ q.Including, cols ≠ [] ∧ cols.length = q.Included.length) ∧
    (∀ cols ∈ q.Including, ∀ c ∈ cols, ∀ c' ∈ cols, c.Size = c'.Size) ∧
    (∀ filters, q.IncludingFilter = some filters →
      ∀ (frag : Nat) (cols : List Column), q.Including[frag]? = some cols →
        ∃ f : Column, filters[frag]? = some f ∧ ∀ c ∈ cols, f.Size = c.Size) ∧
    (∀ c ∈ q.Included, ∀ c' ∈ q.Included, c.Size = c'.Size) ∧
    (∀ f, q.IncludedFilter = some f → ∀ c ∈ q.Included, f.Size = c.Size) ∧
    q.WellFormed := by
  obtain ⟨h₁, h₂, h₃, h₄, hne₁, hne₂, ⟨round₁, hfrag, _⟩, hsize, hfilter, _, _⟩ :=
    NewInclusion_some api included including includedFilter includingFilter q api' h
  have hshape := forFrag_shape included.length includingFilter including 0 0 round₁ hfrag
  rw [h₁, h₂, h₃, h₄]
  have hfrags : ∀ cols ∈ including, cols.length = included.length ∧ cols ≠ [] ∧
      ∀ c ∈ cols, c.Size = rowCount cols := by
    intro cols hcols
    obtain ⟨i, hi⟩ := List.mem_iff_getElem?.mp hcols
    obtain ⟨a, b, c, _⟩ := hshape i cols hi
    exact ⟨a, b, c⟩
  have hflt : ∀ filters, includingFilter = some filters →
      ∀ (frag : Nat) (cols : List Column), including[frag]? = some cols →
        ∃ f : Column, filters[frag]? = some f ∧ f.Size = rowCount cols := by
    intro filters hf frag cols hc
    obtain ⟨_, _, _, hx⟩ := hshape frag cols hc
    obtain ⟨f, hfr, hsz⟩ := hx filters hf
    rw [Nat.zero_add] at hfr
    exact ⟨f, hfr, hsz⟩
  refine ⟨hne₁, fun cols hcols => ⟨(hfrags cols hcols).2.1, (hfrags cols hcols).1⟩,
    fun cols hcols c hc c' hc' => by
      rw [(hfrags cols hcols).2.2 c hc, (hfrags cols hcols).2.2 c' hc'],
    fun filters hf frag cols hc => ?_,
    fun c hc c' hc' => by rw [hsize c hc, hsize c' hc'],
    fun f hf c hc => by rw [hfilter f hf, hsize c hc],
    ?_⟩
  · obtain ⟨f, hfr, hsz⟩ := hflt filters hf frag cols hc
    exact ⟨f, hfr, fun c hc' => by
      rw [hsz, (hfrags cols (List.getElem?_mem hc)).2.2 c hc']⟩
  · exact
      { included_ne := by rw [h₁]; exact hne₁
        including_ne := by rw [h₂]; exact hne₂
        ncol := by rw [h₁, h₂]; exact fun cols hcols => (hfrags cols hcols).1
        frag_size := by rw [h₂]; exact fun cols hcols => (hfrags cols hcols).2.2
        including_filter := by rw [h₂, h₄]; exact hflt
        included_size := by rw [h₁]; exact hsize
        included_filter := by rw [h₁, h₃]; exact hfilter }

/-- Witness of C8: the query built from the tables (A, B) and (T0, T1) with the
including filter FT. -/
theorem NewInclusion_invariants_witness :
    exAPI.NewInclusion [exA, exB] [[exT0, exT1]] none (some [exFT])
      = some (exQueryFT, (exAPI.newMetadata.2).addToRound 1 exQueryFT) ∧
    (exQueryFT.Included ≠ [] ∧
    (∀ cols ∈ exQueryFT.Including, cols ≠ [] ∧ cols.length = exQueryFT.Included.length) ∧
    (∀ cols ∈ exQueryFT.Including, ∀ c ∈ cols, ∀ c' ∈ cols, c.Size = c'.Size) ∧
    (∀ filters, exQueryFT.IncludingFilter = some filters →
      ∀ (frag : Nat) (cols : List Column), exQueryFT.Including[frag]? = some cols →
        ∃ f : Column, filters[frag]? = some f ∧ ∀ c ∈ cols, f.Size = c.Size) ∧
    (∀ c ∈ exQueryFT.Included, ∀ c' ∈ exQueryFT.Included, c.Size = c'.Size) ∧
    (∀ f, exQueryFT.IncludedFilter = some f → ∀ c ∈ exQueryFT.Included, f.Size = c.Size) ∧
    exQueryFT.WellFormed) :=
  ⟨rfl, NewInclusion_invariants exAPI [exA, exB] [[exT0, exT1]] none (some [exFT]) exQueryFT
    ((exAPI.newMetadata.2).addToRound 1 exQueryFT) rfl⟩

/-- C9 at the failing input: `NewInclusion` called with one fragment and two
including filter columns returns a query, whose `IncludingFilter` has two
columns while `Including` has one fragment. -/
theorem NewInclusion_extra_filter :
    (exAPI.NewInclusion [exA, exB] [[exT0, exT1]] none (some [exFT, exFQ])).map
      (fun p => (p.1.IncludingFilter.map List.length, p.1.Including.length))
      = some (some 2, 1) := by
  decide

/-- C10: on success, the round of the query returned by `NewInclusion` is the
maximum of `Round()` over every column of `Included`, every column of every
fragment of `Including`, the included filter (if present) and every including
filter column (if present): no referenced column or filter has a greater round,
and some referenced column or filter has that round. -/
theorem NewInclusion_round (api : API) (included : List Column)
    (including : List (List Column)) (includedFilter : Option Column)
    (includingFilter : Option (List Column)) (q : QueryInclusion) (api' : API)
    (h : api.NewInclusion included including includedFilter includingFilter = some (q, api')) :
    (∀ c : Column,
      (c ∈ included ∨ (∃ cols ∈ including, c ∈ cols) ∨ includedFilter = some c ∨
        ∃ filters, includingFilter = some filters ∧ c ∈ filters) →
      c.Round ≤ q.subQuery.round) ∧
    ∃ c : Column,
      (c ∈ included ∨ (∃ cols ∈ including, c ∈ cols) ∨ includedFilter = some c ∨
        ∃ filters, includingFilter = some filters ∧ c ∈ filters) ∧
      c.Round = q.subQuery.round := by
  obtain ⟨_, _, _, _, hne₁, hne₂, ⟨round₁, hfrag, hround⟩, _, _, _, _⟩ :=
    NewInclusion_some api included including includedFilter includingFilter q api' h
  obtain ⟨_, f₂, f₃, f₄⟩ := forFrag_round included.length includingFilter including 0 0 round₁
    hfrag
  obtain ⟨i₁, i₂, i₃⟩ := foldl_max_round included round₁
  obtain ⟨j₁, j₂, j₃⟩ := foldl_max_round includedFilter.toList
    (included.foldl (fun round c => max round c.Round) round₁)
  rw [← hround] at j₁ j₂ j₃
  constructor
  · rintro c (hc | ⟨cols, hcols, hc⟩ | hc | ⟨filters, hf, hc⟩)
    · exact le_trans (i₂ c hc) j₁
    · exact le_trans (f₂ cols hcols c hc) (le_trans i₁ j₁)
    · exact j₂ c (by simp [hc])
    · exact le_trans (f₃ hne₂ c (by simp [hf, hc])) (le_trans i₁ j₁)
  · rcases j₃ with j | ⟨c, hc, j⟩
    · rcases i₃ with i | ⟨c, hc, i⟩
      · rcases f₄ with f | ⟨c, hc, f⟩
        · obtain ⟨c, hc⟩ := List.exists_mem_of_ne_nil included hne₁
          refine ⟨c, Or.inl hc, ?_⟩
          have hle := le_trans (i₂ c hc) j₁
          rw [j, i, f] at hle ⊢
          exact Nat.le_zero.mp hle
        · refine ⟨c, ?_, by rw [j, i, f]⟩
          rcases hc with hc | hc
          · obtain ⟨cols, hcols, hc'⟩ := List.mem_flatten.mp hc
            exact Or.inr (Or.inl ⟨cols, hcols, hc'⟩)
          · cases hif : includingFilter with
            | none => simp [hif] at hc
            | some filters => exact Or.inr (Or.inr (Or.inr ⟨filters, rfl, by simpa [hif] using hc⟩))
      · exact ⟨c, Or.inl hc, by rw [j, i]⟩
    · exact ⟨c, Or.inr (Or.inr (Or.inl (by simpa using hc))), j⟩

/-- Witness of C10: the query built from the tables (A, B) and (T0, T1) with
the including filter FT has round 1, the round of T0. -/
theorem NewInclusion_round_witness :
    exAPI.NewInclusion [exA, exB] [[exT0, exT1]] none (some [exFT])
      = some (exQueryFT, (exAPI.newMetadata.2).addToRound 1 exQueryFT) ∧
    exQueryFT.subQuery.round = 1 ∧
    ((∀ c : Column,
      (c ∈ [exA, exB] ∨ (∃ cols ∈ [[exT0, exT1]], c ∈ cols) ∨ (none : Option Column) = some c ∨
        ∃ filters, some [exFT] = some filters ∧ c ∈ filters) →
      c.Round ≤ exQueryFT.subQuery.round) ∧
    ∃ c : Column,
      (c ∈ [exA, exB] ∨ (∃ cols ∈ [[exT0, exT1]], c ∈ cols) ∨ (none : Option Column) = some c ∨
        ∃ filters, some [exFT] = some filters ∧ c ∈ filters) ∧
      c.Round = exQueryFT.subQuery.round) :=
  ⟨rfl, rfl, NewInclusion_round exAPI [exA, exB] [[exT0, exT1]] none (some [exFT]) exQueryFT
    ((exAPI.newMetadata.2).addToRound 1 exQueryFT) rfl⟩

/-! ## The constructor and the state of the API -/

theorem exec_eq (api : API) (included : List Column) (including : List (List Column))
    (includedFilter : Option Column) (includingFilter : Option (List Column)) :
    API.NewInclusion.exec api included including includedFilter includingFilter
      = match api.NewInclusion included including includedFilter includingFilter with
        | none => Outcome.panicked api
        | some (q, api') => Outcome.returned q api' := by
  unfold API.NewInclusion.exec API.NewInclusion
  by_cases h1 : included.length = 0
  · simp [h1]
  by_cases h2 : including.length = 0
  · simp [h1, h2]
  simp only [h1, h2, if_false]
  cases API.NewInclusion.forFrag included.length includingFilter 0 including 0 with
  | none => rfl
  | some round₁ =>
    simp only
    by_cases h3 : (utils.AllReturnEqual Column.Size included).isNone = true
    · simp [h3]
    simp only [h3, if_false]
    cases includedFilter with
    | none => rfl
    | some f =>
      cases included[0]? with
      | none => rfl
      | some c0 =>
        by_cases hsz : f.Size = c0.Size
        · simp [hsz]
        · simp [hsz]

/-- C11: construction is atomic. Whenever `NewInclusion` fails, the call ends in
the state of the API it started from: no metadata id has been allocated and no
query has been added to any round of the registry. Whenever it succeeds, the id
counter has advanced by one and exactly one query, the returned one, has been
added, under the round of the returned query. -/
theorem NewInclusion_atomic (api : API) (included : List Column)
    (including : List (List Column)) (includedFilter : Option Column)
    (includingFilter : Option (List Column)) :
    (api.NewInclusion included including includedFilter includingFilter = none →
      API.NewInclusion.exec api included including includedFilter includingFilter
        = Outcome.panicked api) ∧
    (∀ api₁, API.NewInclusion.exec api included including includedFilter includingFilter
        = Outcome.panicked api₁ →
      api₁ = api ∧ api₁.numMetadata = api.numMetadata ∧ ∀ r, api₁.queries r = api.queries r) ∧
    (∀ q api₁, api.NewInclusion included including includedFilter includingFilter
        = some (q, api₁) →
      API.NewInclusion.exec api included including includedFilter includingFilter
        = Outcome.returned q api₁ ∧
      q.metadata.id = api.numMetadata ∧ api₁.numMetadata = api.numMetadata + 1 ∧
      ∀ r, api₁.queries r
        = if r = q.subQuery.round then api.queries r ++ [q] else api.queries r) := by
  have hexec := exec_eq api included including includedFilter includingFilter
  refine ⟨fun h => by rw [hexec, h], fun api₁ h => ?_, fun q api₁ h => ?_⟩
  · rw [hexec] at h
    cases hres : api.NewInclusion included including includedFilter includingFilter with
    | none =>
      rw [hres] at h
      cases h
      exact ⟨rfl, rfl, fun _ => rfl⟩
    | some p =>
      rw [hres] at h
      cases h
  · obtain ⟨_, _, _, _, _, _, _, _, _, hmd, hapi⟩ :=
      NewInclusion_some api included including includedFilter includingFilter q api₁ h
    refine ⟨by rw [hexec, h], by rw [hmd]; rfl, by rw [hapi]; rfl, fun r => by rw [hapi]; rfl⟩

/-- Witness of C11: a fragment with one column against an included table of
two columns panics and leaves the API as it was; the tables (A, B) and
(T0, T1) with the including filter FT give a query with id 0, registered under
round 1. -/
theorem NewInclusion_atomic_witness :
    (exAPI.NewInclusion [exA, exB] [[exU0]] none none = none ∧
      API.NewInclusion.exec exAPI [exA, exB] [[exU0]] none none = Outcome.panicked exAPI) ∧
    (exAPI.NewInclusion [exA, exB] [[exT0, exT1]] none (some [exFT])
        = some (exQueryFT, (exAPI.newMetadata.2).addToRound 1 exQueryFT) ∧
      ((exAPI.newMetadata.2).addToRound 1 exQueryFT).numMetadata = exAPI.numMetadata + 1 ∧
      ((exAPI.newMetadata.2).addToRound 1 exQueryFT).queries 1 = [exQueryFT] ∧
      ((exAPI.newMetadata.2).addToRound 1 exQueryFT).queries 0 = []) :=
  have hfail : exAPI.NewInclusion [exA, exB] [[exU0]] none none = none := rfl
  have hok : exAPI.NewInclusion [exA, exB] [[exT0, exT1]] none (some [exFT])
      = some (exQueryFT, (exAPI.newMetadata.2).addToRound 1 exQueryFT) := rfl
  have h₂ := (NewInclusion_atomic exAPI [exA, exB] [[exT0, exT1]] none (some [exFT])).2.2
    exQueryFT _ hok
  ⟨⟨hfail, (NewInclusion_atomic exAPI [exA, exB] [[exU0]] none none).1 hfail⟩,
    hok, h₂.2.2.1, by rw [h₂.2.2.2 1]; rfl, by rw [h₂.2.2.2 0]; rfl⟩

/-- C12: circuit-mode boundary. For every inclusion query, every circuit API and
every circuit runtime, `CheckGnark` panics with the message that the check is
unsupported; it never returns normally. -/
theorem CheckGnark_unsupported {A G : Type} (i : QueryInclusion) (api : A) (run : G) :
    i.CheckGnark api run
      = Except.error "UNSUPPORTED : can't check an inclusion query directly into the circuit" ∧
    ∀ u : Unit, i.CheckGnark api run ≠ Except.ok u := by
  refine ⟨rfl, fun u h => ?_⟩
  unfold QueryInclusion.CheckGnark at h
  cases h

/-- C14: the metadata mutators of `QueryRange` return the same query with only
their own field changed. `WithTags t` makes `Tags()` the previous tags followed
by `t`, `WithName n` sets the name to `n`, `WithDoc d` sets the doc to `d`; none
of them changes the id, the scope, the other two of name, tags and doc, or any
other field of the query. -/
theorem QueryRange_mutators (i : QueryRange) (t : List String) (n d : String) :
    ((i.WithTags t).Tags = i.Tags ++ t ∧
      (i.WithTags t).metadata.name = i.metadata.name ∧
      (i.WithTags t).metadata.doc = i.metadata.doc ∧
      (i.WithTags t).id = i.id ∧ (i.WithTags t).metadata.scope = i.metadata.scope ∧
      (i.WithTags t).Handle = i.Handle ∧ (i.WithTags t).B = i.B ∧
      (i.WithTags t).subQuery = i.subQuery) ∧
    ((i.WithName n).metadata.name = n ∧
      (i.WithName n).Tags = i.Tags ∧
      (i.WithName n).metadata.doc = i.metadata.doc ∧
      (i.WithName n).id = i.id ∧ (i.WithName n).metadata.scope = i.metadata.scope ∧
      (i.WithName n).Handle = i.Handle ∧ (i.WithName n).B = i.B ∧
      (i.WithName n).subQuery = i.subQuery) ∧
    ((i.WithDoc d).metadata.doc = d ∧
      (i.WithDoc d).Tags = i.Tags ∧
      (i.WithDoc d).metadata.name = i.metadata.name ∧
      (i.WithDoc d).id = i.id ∧ (i.WithDoc d).metadata.scope = i.metadata.scope ∧
      (i.WithDoc d).Handle = i.Handle ∧ (i.WithDoc d).B = i.B ∧
      (i.WithDoc d).subQuery = i.subQuery) := by
  refine ⟨⟨?_, ?_, ?_, ?_, ?_, ?_, ?_, ?_⟩, ⟨?_, ?_, ?_, ?_, ?_, ?_, ?_, ?_⟩,
    ⟨?_, ?_, ?_, ?_, ?_, ?_, ?_, ?_⟩⟩ <;>
    simp [QueryRange.WithTags, QueryRange.WithName, QueryRange.WithDoc, QueryRange.Tags,
      QueryRange.id]

/-- C15: for every range query and every runtime, `ComputeResult` returns the
empty no-value result `QueryResNone`, and `ComputeResultGnark` returns the empty
no-value circuit result `QueryResNoneGnark`, whatever the query, the circuit API
and the runtime are. -/
theorem ComputeResult_none {F A G V : Type} (i : QueryRange) (run : Runtime F) (api : A)
    (grun : G) :
    i.ComputeResult run = QueryResult.QueryResNone ∧
    (i.ComputeResultGnark api grun : QueryResultGnark V)
      = QueryResultGnark.QueryResNoneGnark ∧
    (∀ x : F, i.ComputeResult run ≠ QueryResult.QueryResValue x) ∧
    ∀ v : V, (i.ComputeResultGnark api grun : QueryResultGnark V)
      ≠ QueryResultGnark.QueryResValueGnark v := by
  refine ⟨rfl, rfl, fun x h => ?_, fun v h => ?_⟩
  · unfold QueryRange.ComputeResult at h
    cases h
  · unfold QueryRange.ComputeResultGnark at h
    cases h

/-- C16: `IsFilteredOnIncluding` returns true exactly when the query has an
including filter and `IsFilteredOnIncluded` returns true exactly when it has an
included filter; for a query returned by `NewInclusion` these are the presence
of the arguments `includingFilter` and `includedFilter`. -/
theorem IsFiltered_iff (r : QueryInclusion) :
    (r.IsFilteredOnIncluding = true ↔ r.IncludingFilter ≠ none) ∧
    (r.IsFilteredOnIncluded = true ↔ r.IncludedFilter ≠ none) ∧
    ∀ (api : API) (included : List Column) (including : List (List Column))
      (includedFilter : Option Column) (includingFilter : Option (List Column)) (api' : API),
      api.NewInclusion included including includedFilter includingFilter = some (r, api') →
      (r.IsFilteredOnIncluding = true ↔ includingFilter ≠ none) ∧
      (r.IsFilteredOnIncluded = true ↔ includedFilter ≠ none) := by
  have h₁ : r.IsFilteredOnIncluding = true ↔ r.IncludingFilter ≠ none := by
    unfold QueryInclusion.IsFilteredOnIncluding
    cases r.IncludingFilter <;> simp
  have h₂ : r.IsFilteredOnIncluded = true ↔ r.IncludedFilter ≠ none := by
    unfold QueryInclusion.IsFilteredOnIncluded
    cases r.IncludedFilter <;> simp
  refine ⟨h₁, h₂, fun api included including includedFilter includingFilter api' h => ?_⟩
  obtain ⟨_, _, h₃, h₄, _⟩ :=
    NewInclusion_some api included including includedFilter includingFilter r api' h
  rw [← h₃, ← h₄]
  exact ⟨h₁, h₂⟩

/-- Witness of C16: the query built from the tables (A, B) and (T0, T1) with
the including filter FT and no included filter. -/
theorem IsFiltered_iff_witness :
    exAPI.NewInclusion [exA, exB] [[exT0, exT1]] none (some [exFT])
      = some (exQueryFT, (exAPI.newMetadata.2).addToRound 1 exQueryFT) ∧
    exQueryFT.IsFilteredOnIncluding = true ∧ exQueryFT.IsFilteredOnIncluded = false ∧
    ((exQueryFT.IsFilteredOnIncluding = true ↔ some [exFT] ≠ none) ∧
      (exQueryFT.IsFilteredOnIncluded = true ↔ (none : Option Column) ≠ none)) :=
  ⟨rfl, rfl, rfl, (IsFiltered_iff exQueryFT).2.2 exAPI [exA, exB] [[exT0, exT1]] none
    (some [exFT]) ((exAPI.newMetadata.2).addToRound 1 exQueryFT) rfl⟩

/-! ## The error and the safety of the native check -/

theorem NewInclusion_wellFormed (api : API) (included : List Column)
    (including : List (List Column)) (includedFilter : Option Column)
    (includingFilter : Option (List Column)) (q : QueryInclusion) (api' : API)
    (h : api.NewInclusion included including includedFilter includingFilter = some (q, api')) :
    q.WellFormed := by
  obtain ⟨h₁, h₂, h₃, h₄, hne₁, hne₂, ⟨round₁, hfrag, _⟩, hsize, hfilter, _, _⟩ :=
    NewInclusion_some api included including includedFilter includingFilter q api' h
  have hshape := forFrag_shape included.length includingFilter including 0 0 round₁ hfrag
  have hfrags : ∀ cols ∈ including, cols.length = included.length ∧
      ∀ c ∈ cols, c.Size = rowCount cols := by
    intro cols hcols
    obtain ⟨i, hi⟩ := List.mem_iff_getElem?.mp hcols
    obtain ⟨a, _, c, _⟩ := hshape i cols hi
    exact ⟨a, c⟩
  exact
    { included_ne := by rw [h₁]; exact hne₁
      including_ne := by rw [h₂]; exact hne₂
      ncol := by rw [h₁, h₂]; exact fun cols hcols => (hfrags cols hcols).1
      frag_size := by rw [h₂]; exact fun cols hcols => (hfrags cols hcols).2
      including_filter := by
        rw [h₂, h₄]
        intro filters hf frag cols hc
        obtain ⟨_, _, _, hx⟩ := hshape frag cols hc
        obtain ⟨f, hfr, hsz⟩ := hx filters hf
        rw [Nat.zero_add] at hfr
        exact ⟨f, hfr, hsz⟩
      included_size := by rw [h₁]; exact hsize
      included_filter := by rw [h₁, h₃]; exact hfilter }

/-- C18: when `Check` returns an error, the row in the error is the smallest
index of a required included row whose fingerprint is absent from the
membership set, and the error lists one pair per included column, in the order
of `Included`: the names of the columns with the values of that row. -/
theorem Check_error_row {F : Type} [CommRing F] [DecidableEq F]
    (r : QueryInclusion) (run : Runtime F) (alpha : F)
    (hr : r.WellFormed) (hrun : run.WellSized r) (row : Nat) (nf : List (String × F))
    (h : r.Check run alpha = some (error.rowNotFound row nf)) :
    row < rowCount r.Included ∧ r.required run row ∧ ¬ r.rowMatched run alpha row ∧
    (∀ row' < row, r.required run row' → r.rowMatched run alpha row') ∧
    nf.length = r.Included.length ∧
    nf.map Prod.fst = r.Included.map Column.String ∧
    run.row r.Included row = some (nf.map Prod.snd) := by
  obtain ⟨hlt, hreq, hnot, hfirst, t, ht, hnf⟩ :=
    Check_error_first r run alpha hr hrun row nf h
  obtain ⟨t', ht', hlen, _⟩ := included_rows r run alpha hr hrun row hlt
  rw [ht] at ht'
  cases ht'
  have hlen' : (r.Included.map Column.String).length = t.length := by
    rw [List.length_map, hlen]
  refine ⟨hlt, hreq, hnot, hfirst, ?_, ?_, ?_⟩
  · rw [hnf, List.length_zip, hlen', Nat.min_self, hlen]
  · rw [hnf, List.map_fst_zip _ _ (Nat.le_of_eq hlen')]
  · rw [hnf, List.map_snd_zip _ _ (Nat.le_of_eq hlen'.symm)]
    exact ht

/-- Witness of C18: the included rows `(1,2)`, `(9,9)` against the single
including row `(1,2)`, with the challenge 5; the error names row 1 and lists
`A=9`, `B=9`. -/
theorem Check_error_row_witness :
    exQueryU.WellFormed ∧ exRunViolation.WellSized exQueryU ∧
    exQueryU.Check exRunViolation 5 = some (error.rowNotFound 1 [("A", 9), ("B", 9)]) ∧
    (1 < rowCount exQueryU.Included ∧ exQueryU.required exRunViolation 1 ∧
      ¬ exQueryU.rowMatched exRunViolation 5 1 ∧
      (∀ row' < 1, exQueryU.required exRunViolation row' →
        exQueryU.rowMatched exRunViolation 5 row') ∧
      [("A", (9 : ZMod 13)), ("B", 9)].length = exQueryU.Included.length ∧
      [("A", (9 : ZMod 13)), ("B", 9)].map Prod.fst = exQueryU.Included.map Column.String ∧
      exRunViolation.row exQueryU.Included 1
        = some ([("A", (9 : ZMod 13)), ("B", 9)].map Prod.snd)) :=
  have hcheck : exQueryU.Check exRunViolation 5
      = some (error.rowNotFound 1 [("A", 9), ("B", 9)]) := by decide
  ⟨exQueryU_wellFormed, exRunViolation_wellSized, hcheck,
    Check_error_row exQueryU exRunViolation 5 exQueryU_wellFormed exRunViolation_wellSized 1
      [("A", 9), ("B", 9)] hcheck⟩

/-- C19: `Check` is safe on constructed queries. For every query returned by
`NewInclusion`, every runtime that assigns to each column of the query a vector
of its declared size and every outcome of the draw of the challenge, the first
column of every fragment exists, a filter exists for every fragment when
filters are present, and `Check` performs no read out of range; when the draw
succeeds it ends by returning no error or the row-not-found error, and the
only panic left is the one on an error of the entropy source. -/
theorem Check_safe {F : Type} [CommRing F] [DecidableEq F]
    (api : API) (included : List Column) (including : List (List Column))
    (includedFilter : Option Column) (includingFilter : Option (List Column))
    (q : QueryInclusion) (api' : API) (run : Runtime F) (draw : Option F)
    (h : api.NewInclusion included including includedFilter includingFilter = some (q, api'))
    (hrun : run.WellSized q) :
    (∃ c0, q.Included[0]? = some c0) ∧
    (∀ cols ∈ q.Including, ∃ c0, cols[0]? = some c0) ∧
    (∀ filters, q.IncludingFilter = some filters →
      ∀ frag < q.Including.length, ∃ f, filters[frag]? = some f) ∧
    QueryInclusion.Check.withDraw q run draw ≠ CheckOutcome.outOfRange ∧
    (∀ alpha, draw = some alpha →
      QueryInclusion.Check.withDraw q run draw = CheckOutcome.returned error.nil ∨
      ∃ (row : Nat) (nf : List (String × F)),
        QueryInclusion.Check.withDraw q run draw
          = CheckOutcome.returned (error.rowNotFound row nf)) ∧
    (draw = none → QueryInclusion.Check.withDraw q run draw = CheckOutcome.drawFailed) := by
  have hr := NewInclusion_wellFormed api included including includedFilter includingFilter
    q api' h
  have hpos : 0 < q.Included.length := List.length_pos.mpr hr.included_ne
  have hret : ∀ alpha, draw = some alpha →
      QueryInclusion.Check.withDraw q run draw = CheckOutcome.returned error.nil ∨
      ∃ (row : Nat) (nf : List (String × F)),
        QueryInclusion.Check.withDraw q run draw
          = CheckOutcome.returned (error.rowNotFound row nf) := by
    intro alpha hd
    subst hd
    rcases Check_spec q run alpha hr hrun with ⟨hres, _⟩ | ⟨row, t, hres, _⟩
    · exact Or.inl (by simp only [QueryInclusion.Check.withDraw, hres])
    · exact Or.inr ⟨row, (q.Included.map Column.String).zip t, by simp only [QueryInclusion.Check.withDraw, hres]⟩
  refine ⟨⟨_, List.getElem?_eq_getElem hpos⟩, fun cols hcols => ?_,
    fun filters hf frag hfrag => ?_, ?_, hret, fun hd => by subst hd; rfl⟩
  · have hcpos : 0 < cols.length := by rw [hr.ncol cols hcols]; exact hpos
    exact ⟨_, List.getElem?_eq_getElem hcpos⟩
  · obtain ⟨f, hfr, _⟩ := hr.including_filter filters hf frag _ (List.getElem?_eq_getElem hfrag)
    exact ⟨f, hfr⟩
  · cases hd : draw with
    | none => simp [QueryInclusion.Check.withDraw]
    | some alpha =>
      rcases hret alpha hd with h' | ⟨row, nf, h'⟩
      · rw [hd] at h'; rw [h']; simp
      · rw [hd] at h'; rw [h']; simp

/-- Witness of C19: the query built from the tables (A, B) and (T0, T1) with
the including filter FT, checked in the runtime `exRunFT₁`: with the challenge
5 drawn it returns the error of row 1, and with a failed draw it panics on the
error of the entropy source. -/
theorem Check_safe_witness :
    exAPI.NewInclusion [exA, exB] [[exT0, exT1]] none (some [exFT])
      = some (exQueryFT, (exAPI.newMetadata.2).addToRound 1 exQueryFT) ∧
    exRunFT₁.WellSized exQueryFT ∧
    QueryInclusion.Check.withDraw exQueryFT exRunFT₁ (some 5)
      = CheckOutcome.returned (error.rowNotFound 1 [("A", 5), ("B", 6)]) ∧
    QueryInclusion.Check.withDraw exQueryFT exRunFT₁ none = CheckOutcome.drawFailed ∧
    ((∃ c0, exQueryFT.Included[0]? = some c0) ∧
    (∀ cols ∈ exQueryFT.Including, ∃ c0, cols[0]? = some c0) ∧
    (∀ filters, exQueryFT.IncludingFilter = some filters →
      ∀ frag < exQueryFT.Including.length, ∃ f, filters[frag]? = some f) ∧
    QueryInclusion.Check.withDraw exQueryFT exRunFT₁ (some 5) ≠ CheckOutcome.outOfRange ∧
    (∀ alpha, some (5 : ZMod 13) = some alpha →
      QueryInclusion.Check.withDraw exQueryFT exRunFT₁ (some 5)
        = CheckOutcome.returned error.nil ∨
      ∃ (row : Nat) (nf : List (String × ZMod 13)),
        QueryInclusion.Check.withDraw exQueryFT exRunFT₁ (some 5)
          = CheckOutcome.returned (error.rowNotFound row nf)) ∧
    (some (5 : ZMod 13) = none →
      QueryInclusion.Check.withDraw exQueryFT exRunFT₁ (some 5) = CheckOutcome.drawFailed)) :=
  have hrun : exRunFT₁.WellSized exQueryFT := by unfold Runtime.WellSized; decide
  ⟨rfl, hrun, by decide, by decide,
    Check_safe exAPI [exA, exB] [[exT0, exT1]] none (some [exFT]) exQueryFT
      ((exAPI.newMetadata.2).addToRound 1 exQueryFT) exRunFT₁ (some 5) rfl hrun⟩

/-! ## The diagnostic path of a range query -/

theorem digitChar_ne_slash (d : Nat) (h : d < 10) : (Nat.digitChar d != '/') = true := by
  interval_cases d <;> decide

theorem toDigitsCore_ne_slash (fuel n : Nat) (ds : List Char)
    (h : ∀ c ∈ ds, (c != '/') = true) :
    ∀ c ∈ Nat.toDigitsCore 10 fuel n ds, (c != '/') = true := by
  induction fuel generalizing n ds with
  | zero => simpa [Nat.toDigitsCore] using h
  | succ fuel ih =>
    have hd : ∀ c ∈ Nat.digitChar (n % 10) :: ds, (c != '/') = true := by
      intro c hc
      rcases List.mem_cons.mp hc with hc | hc
      · rw [hc]; exact digitChar_ne_slash _ (Nat.mod_lt _ (by decide))
      · exact h c hc
    unfold Nat.toDigitsCore
    simp only
    split
    · exact hd
    · exact ih _ _ hd

theorem Itoa_ne_slash (n : Nat) : ∀ c ∈ (strconv.Itoa n).data, (c != '/') = true := by
  unfold strconv.Itoa Nat.repr Nat.toDigits
  simpa [List.asString] using toDigitsCore_ne_slash (n + 1) n [] (by simp)

theorem dropWhile_append_all {α : Type} (p : α → Bool) (l r : List α)
    (h : ∀ a ∈ l, p a = true) : (l ++ r).dropWhile p = r.dropWhile p := by
  induction l with
  | nil => rfl
  | cons a l ih =>
    rw [List.cons_append, List.dropWhile_cons, h a (List.mem_cons_self _ _)]
    exact ih (fun b hb => h b (List.mem_cons_of_mem _ hb))

theorem dropIdSuffix_path (p : String) (n : Nat) :
    dropIdSuffix (p ++ "/" ++ strconv.Itoa n) = p ++ "/" := by
  unfold dropIdSuffix
  have h : (p ++ "/" ++ strconv.Itoa n).data = p.data ++ '/' :: (strconv.Itoa n).data := by
    simp [String.data_append]
  rw [h, List.reverse_append, List.reverse_cons, List.append_assoc,
    dropWhile_append_all _ _ _ (fun a ha => Itoa_ne_slash n a (List.mem_reverse.mp ha))]
  simp [List.dropWhile]
  rfl

/-- C13 (as amended): determinism of diagnostics. For any two range queries of
the same scope given the same non-empty explicit name with `WithName`, the
outputs of `String()` are identical except for the numeric id after the last
`/`: both are the same path followed by the decimal id of the query. -/
theorem String_same_name (q₁ q₂ : QueryRange) (name : String)
    (hscope : q₁.metadata.scope = q₂.metadata.scope) (hname : name ≠ "") :
    dropIdSuffix (q₁.WithName name).String = dropIdSuffix (q₂.WithName name).String ∧
    (q₁.WithName name).String
      = dropIdSuffix (q₁.WithName name).String ++ strconv.Itoa q₁.id ∧
    (q₂.WithName name).String
      = dropIdSuffix (q₂.WithName name).String ++ strconv.Itoa q₂.id := by
  have hs : ∀ q : QueryRange, (q.WithName name).String
      = q.metadata.scope.getFullScope ++ "/" ++ name ++ "/" ++ strconv.Itoa q.id := by
    intro q
    simp [QueryRange.String, QueryRange.WithName, metadata.nameOrDefault, hname, QueryRange.id]
  have hd : ∀ q : QueryRange, dropIdSuffix (q.WithName name).String
      = q.metadata.scope.getFullScope ++ "/" ++ name ++ "/" := by
    intro q
    rw [hs q, dropIdSuffix_path]
  refine ⟨by rw [hd q₁, hd q₂, hscope], ?_, ?_⟩
  · rw [hd q₁, hs q₁]
  · rw [hd q₂, hs q₂]

/-- Witness of C13 (as amended): two range queries of scope `a` with ids 0 and 1
named `x` have the paths `a/x/0` and `a/x/1`. -/
theorem String_same_name_witness :
    exRange₀.metadata.scope = exRange₁.metadata.scope ∧ "x" ≠ "" ∧
    (exRange₀.WithName "x").String = "a/x/0" ∧ (exRange₁.WithName "x").String = "a/x/1" ∧
    (dropIdSuffix (exRange₀.WithName "x").String = dropIdSuffix (exRange₁.WithName "x").String ∧
    (exRange₀.WithName "x").String
      = dropIdSuffix (exRange₀.WithName "x").String ++ strconv.Itoa exRange₀.id ∧
    (exRange₁.WithName "x").String
      = dropIdSuffix (exRange₁.WithName "x").String ++ strconv.Itoa exRange₁.id) :=
  ⟨rfl, by decide, by decide, by decide,
    String_same_name exRange₀ exRange₁ "x" rfl (by decide)⟩

/-- Counterexample to C13 as stated. Two range queries of the scopes `a` and `b`
given the same name `x` have the paths `a/x/0` and `b/x/2`, which differ before
the last `/`. And two range queries of the same scope given the empty name have
the paths `a/QUERY_0/0` and `a/QUERY_1/1`: the default name, derived from the
id, is used. -/
theorem String_same_name_counterexample :
    ((exRange₀.WithName "x").String = "a/x/0" ∧ (exRange₂.WithName "x").String = "b/x/2" ∧
      dropIdSuffix (exRange₀.WithName "x").String = "a/x/" ∧
      dropIdSuffix (exRange₂.WithName "x").String = "b/x/" ∧
      dropIdSuffix (exRange₀.WithName "x").String
        ≠ dropIdSuffix (exRange₂.WithName "x").String) ∧
    ((exRange₀.WithName "").String = "a/QUERY_0/0" ∧
      (exRange₁.WithName "").String = "a/QUERY_1/1" ∧
      dropIdSuffix (exRange₀.WithName "").String
        ≠ dropIdSuffix (exRange₁.WithName "").String) := by
  decide

/-! ## The soundness bound of the fingerprint -/

theorem fingerprint_shift {F : Type} [CommRing F] (alpha : F) (xs : List F) (k : Nat) :
    ((xs.enumFrom (k + 1)).map (fun p => alpha ^ p.1 * p.2)).sum
      = alpha * ((xs.enumFrom k).map (fun p => alpha ^ p.1 * p.2)).sum := by
  induction xs generalizing k with
  | nil => simp
  | cons x xs ih =>
    simp only [List.enumFrom_cons, List.map_cons, List.sum_cons, ih (k + 1)]
    ring

theorem fingerprint_cons {F : Type} [CommRing F] (alpha x : F) (xs : List F) :
    fingerprint alpha (x :: xs) = x + alpha * fingerprint alpha xs := by
  unfold fingerprint
  rw [List.enum_cons, List.map_cons, List.sum_cons, fingerprint_shift alpha xs 0]
  simp [List.enum]

theorem fingerprint_poly {F : Type} [CommRing F] (d : List F) :
    ∃ p : Polynomial F, (∀ i, p.coeff i = d.getD i 0) ∧
      ∀ alpha, p.eval alpha = fingerprint alpha d := by
  induction d with
  | nil => exact ⟨0, by simp, by simp [fingerprint]⟩
  | cons x xs ih =>
    obtain ⟨q, hq, he⟩ := ih
    refine ⟨Polynomial.C x + Polynomial.X * q, fun i => ?_, fun alpha => ?_⟩
    · cases i with
      | zero => simp
      | succ i => simp [Polynomial.coeff_X_mul, Polynomial.coeff_C_succ, hq i]
    · rw [fingerprint_cons, ← he alpha]
      simp

theorem fingerprint_collisions {F : Type} [CommRing F] [IsDomain F] [DecidableEq F]
    (t t' : List F) (hlen : t.length = t'.length) (hne : t ≠ t') :
    ∃ s : Finset F, (∀ alpha, alpha ∈ s ↔ fingerprint alpha t = fingerprint alpha t') ∧
      s.card ≤ t.length - 1 := by
  obtain ⟨p, hp, hpe⟩ := fingerprint_poly t
  obtain ⟨p', hp', hpe'⟩ := fingerprint_poly t'
  have hdiff : p - p' ≠ 0 := by
    intro h0
    apply hne
    apply List.ext_getElem? 
    intro i
    have hc : (p - p').coeff i = 0 := by rw [h0]; simp
    rw [Polynomial.coeff_sub, hp i, hp' i, sub_eq_zero] at hc
    by_cases hi : i < t.length
    · have hi' : i < t'.length := hlen ▸ hi
      simp only [List.getD_eq_getElem?_getD, List.getElem?_eq_getElem hi,
        List.getElem?_eq_getElem hi', Option.getD_some] at hc
      rw [List.getElem?_eq_getElem hi, List.getElem?_eq_getElem hi', hc]
    · have hi' : ¬ i < t'.length := hlen ▸ hi
      rw [List.getElem?_eq_none (Nat.le_of_not_lt hi),
        List.getElem?_eq_none (Nat.le_of_not_lt hi')]
  have hdeg : (p - p').natDegree ≤ t.length - 1 := by
    rw [Polynomial.natDegree_le_iff_coeff_eq_zero]
    intro N hN
    have hN₁ : t.length ≤ N := by omega
    have hN₂ : t'.length ≤ N := hlen ▸ hN₁
    rw [Polynomial.coeff_sub, hp N, hp' N]
    simp [List.getElem?_eq_none hN₁, List.getElem?_eq_none hN₂]
  refine ⟨(p - p').roots.toFinset, fun alpha => ?_, ?_⟩
  · rw [Multiset.mem_toFinset, Polynomial.mem_roots hdiff, Polynomial.IsRoot.def,
      Polynomial.eval_sub, hpe alpha, hpe' alpha, sub_eq_zero]
  · exact le_trans (Multiset.toFinset_card_le _) (le_trans (Polynomial.card_roots' _) hdeg)

theorem fingerprint_collisions_list {F : Type} [CommRing F] [IsDomain F] [DecidableEq F]
    (t : List F) (L : List (List F))
    (hL : ∀ t' ∈ L, t.length = t'.length ∧ t ≠ t') :
    ∃ s : Finset F,
      (∀ alpha, alpha ∈ s ↔ ∃ t' ∈ L, fingerprint alpha t = fingerprint alpha t') ∧
      s.card ≤ (t.length - 1) * L.length := by
  induction L with
  | nil => exact ⟨∅, by simp, by simp⟩
  | cons t' L ih =>
    obtain ⟨s, hs, hcard⟩ := ih (fun t'' h'' => hL t'' (List.mem_cons_of_mem _ h''))
    obtain ⟨hlen, hne⟩ := hL t' (List.mem_cons_self _ _)
    obtain ⟨s', hs', hcard'⟩ := fingerprint_collisions t t' hlen hne
    refine ⟨s' ∪ s, fun alpha => ?_, ?_⟩
    · rw [Finset.mem_union, hs alpha, hs' alpha]
      simp
    · calc (s' ∪ s).card ≤ s'.card + s.card := Finset.card_union_le _ _
        _ ≤ (t.length - 1) + (t.length - 1) * L.length := Nat.add_le_add hcard' hcard
        _ = (t.length - 1) * (t' :: L).length := by rw [List.length_cons]; ring

theorem isEligible_iff {F : Type} [CommRing F] [DecidableEq F] (r : QueryInclusion)
    (run : Runtime F) (frag row : Nat) :
    r.isEligible run frag row = true ↔ r.eligible run frag row := by
  unfold QueryInclusion.isEligible QueryInclusion.eligible
  cases r.IncludingFilter with
  | none => simp
  | some filters =>
    cases hf : filters[frag]? with
    | none => simp [hf]
    | some f => simp [hf]

theorem mem_eligibleRows {F : Type} [CommRing F] [DecidableEq F] (r : QueryInclusion)
    (run : Runtime F) (frag row : Nat) :
    (frag, row) ∈ r.eligibleRows run ↔
      ∃ cols, r.Including[frag]? = some cols ∧ row < rowCount cols ∧
        r.eligible run frag row := by
  unfold QueryInclusion.eligibleRows
  simp only [List.mem_flatMap, List.mem_range, List.mem_map, List.mem_filter, Prod.mk.injEq,
    isEligible_iff]
  constructor
  · rintro ⟨frag', hfrag', row', ⟨hrow', he⟩, h₁, h₂⟩
    subst h₁
    subst h₂
    refine ⟨r.Including[frag'], List.getElem?_eq_getElem hfrag', ?_, he⟩
    rw [List.getElem?_eq_getElem hfrag'] at hrow'
    exact hrow'
  · rintro ⟨cols, hc, hrow, he⟩
    have hlt : frag < r.Including.length := by
      by_contra hge
      rw [List.getElem?_eq_none (Nat.le_of_not_lt hge)] at hc
      cases hc
    exact ⟨frag, hlt, row, ⟨by rw [hc]; exact hrow, he⟩, rfl, rfl⟩

/-- C17: soundness bound of the row fingerprint. In a query with `n` included
columns, over an integral domain (in particular a field), if the value tuple of
an included row differs from the value tuple of every one of the `E` eligible
including rows, then the challenges `alpha` for which the fingerprint
`sum_i alpha^i * value_i` of that row is found in the membership set form a
finite set of at most `(n - 1) * E` elements, and for every other challenge
`Check` rejects when the row is required; in particular two distinct tuples of
the same length `n` have equal fingerprints for at most `n - 1` challenges. -/
theorem fingerprint_soundness {F : Type} [CommRing F] [IsDomain F] [DecidableEq F]
    (r : QueryInclusion) (run : Runtime F) (row : Nat)
    (hr : r.WellFormed) (hrun : run.WellSized r) (hrow : row < rowCount r.Included)
    (hdiff : ∀ (frag : Nat) (cols : List Column) (row' : Nat),
      r.Including[frag]? = some cols → row' < rowCount cols → r.eligible run frag row' →
      run.row r.Included row ≠ run.row cols row') :
    (∃ s : Finset F, (∀ alpha, alpha ∈ s ↔ r.rowMatched run alpha row) ∧
      s.card ≤ (r.Included.length - 1) * (r.eligibleRows run).length ∧
      ∀ alpha, alpha ∉ s → r.required run row →
        ∃ (row₀ : Nat) (nf : List (String × F)),
          r.Check run alpha = some (error.rowNotFound row₀ nf)) ∧
    ∀ t t' : List F, t.length = t'.length → t ≠ t' →
      ∃ s : Finset F, (∀ alpha, alpha ∈ s ↔ fingerprint alpha t = fingerprint alpha t') ∧
        s.card ≤ t.length - 1 := by
  refine ⟨?_, fun t t' hlen hne => fingerprint_collisions t t' hlen hne⟩
  obtain ⟨t, ht, htlen, _⟩ := included_rows r run 0 hr hrun row hrow
  have hL : ∀ t' ∈ (r.eligibleRows run).filterMap
      (fun p => (r.Including[p.1]?).bind (fun cols => run.row cols p.2)),
      t.length = t'.length ∧ t ≠ t' := by
    intro t' ht'
    obtain ⟨⟨frag, row'⟩, hmem, hb⟩ := List.mem_filterMap.mp ht'
    obtain ⟨cols, hc, hrow', he⟩ := (mem_eligibleRows r run frag row').mp hmem
    simp only [hc, Option.some_bind] at hb
    obtain ⟨t'', ht'', hlen'', _⟩ := fragment_rows r run 0 hrun cols (List.getElem?_mem hc)
      (hr.frag_size cols (List.getElem?_mem hc)) row' hrow'
    rw [hb] at ht''
    cases ht''
    refine ⟨by rw [htlen, hlen'', hr.ncol cols (List.getElem?_mem hc)], fun heq => ?_⟩
    exact hdiff frag cols row' hc hrow' he (by rw [ht, hb, heq])
  obtain ⟨s, hs, hcard⟩ := fingerprint_collisions_list t _ hL
  have hmatched : ∀ alpha, alpha ∈ s ↔ r.rowMatched run alpha row := by
    intro alpha
    rw [hs alpha]
    unfold QueryInclusion.rowMatched
    constructor
    · rintro ⟨t', ht', hfp⟩
      obtain ⟨⟨frag, row'⟩, hmem, hb⟩ := List.mem_filterMap.mp ht'
      obtain ⟨cols, hc, hrow', he⟩ := (mem_eligibleRows r run frag row').mp hmem
      simp only [hc, Option.some_bind] at hb
      exact ⟨frag, cols, row', hc, hrow', he, t, t', ht, hb, hfp⟩
    · rintro ⟨frag, cols, row', hc, hrow', he, t₀, t', ht₀, ht', hfp⟩
      rw [ht] at ht₀
      cases ht₀
      refine ⟨t', List.mem_filterMap.mpr ⟨(frag, row'),
        (mem_eligibleRows r run frag row').mpr ⟨cols, hc, hrow', he⟩, ?_⟩, hfp⟩
      simp only [hc, Option.some_bind]
      exact ht'
  refine ⟨s, hmatched, ?_, fun alpha hnot hreq => ?_⟩
  · rw [htlen] at hcard
    exact le_trans hcard (Nat.mul_le_mul_left _ (List.length_filterMap_le _ _))
  · rcases Check_spec r run alpha hr hrun with ⟨_, hall⟩ | ⟨row₀, t₀, hres, _⟩
    · exact absurd ((hmatched alpha).mpr (hall row hrow hreq)) hnot
    · exact ⟨row₀, _, hres⟩

/-- Witness of C17: the included row `(9,9)` against the single including row
`(1,2)`, two columns and one eligible row: at most one challenge makes `Check`
accept the row. -/
theorem fingerprint_soundness_witness :
    exQueryU.WellFormed ∧ exRunViolation.WellSized exQueryU ∧
    1 < rowCount exQueryU.Included ∧
    (∀ (frag : Nat) (cols : List Column) (row' : Nat),
      exQueryU.Including[frag]? = some cols → row' < rowCount cols →
      exQueryU.eligible exRunViolation frag row' →
      exRunViolation.row exQueryU.Included 1 ≠ exRunViolation.row cols row') ∧
    (exQueryU.Included.length - 1) * (exQueryU.eligibleRows exRunViolation).length = 1 ∧
    ((∃ s : Finset (ZMod 13), (∀ alpha, alpha ∈ s ↔ exQueryU.rowMatched exRunViolation alpha 1) ∧
      s.card ≤ (exQueryU.Included.length - 1) * (exQueryU.eligibleRows exRunViolation).length ∧
      ∀ alpha, alpha ∉ s → exQueryU.required exRunViolation 1 →
        ∃ (row₀ : Nat) (nf : List (String × ZMod 13)),
          exQueryU.Check exRunViolation alpha = some (error.rowNotFound row₀ nf)) ∧
    ∀ t t' : List (ZMod 13), t.length = t'.length → t ≠ t' →
      ∃ s : Finset (ZMod 13),
        (∀ alpha, alpha ∈ s ↔ fingerprint alpha t = fingerprint alpha t') ∧
        s.card ≤ t.length - 1) := by
  haveI : Fact (Nat.Prime 13) := ⟨by norm_num⟩
  have hdiff : ∀ (frag : Nat) (cols : List Column) (row' : Nat),
      exQueryU.Including[frag]? = some cols → row' < rowCount cols →
      exQueryU.eligible exRunViolation frag row' →
      exRunViolation.row exQueryU.Included 1 ≠ exRunViolation.row cols row' := by
    intro frag cols row' hc hrow' _
    rcases frag with _ | frag
    · simp only [exQueryU, List.getElem?_cons_zero, Option.some.injEq] at hc
      subst hc
      have hlt : row' < 1 := hrow'
      interval_cases row'
      decide
    · simp [exQueryU] at hc
  exact ⟨exQueryU_wellFormed, exRunViolation_wellSized, by decide, hdiff, by decide,
    fingerprint_soundness exQueryU exRunViolation 1 exQueryU_wellFormed
      exRunViolation_wellSized (by decide) hdiff⟩

end Wizard
